import Mathlib

/-!
# Binance handler: classification, routing and the bounded message pipeline

A shallow embedding of `handlers/binance/binance.go`.

* `ProcessMessage` with its helpers `WrappedCheck`, `extractEventType` and
  `processWrapped` is embedded over a model of `encoding/json`: a received
  message is a `String`, `parseJSON` is the scanner, and the `decode…` functions
  are what `json.Unmarshal` does for each target struct.
* `InitializeStreams`, `HandleConnection`, `ConsumeMessages` and `ReceiveMessages` are embedded with
  explicit state: the buffer registry, the connection, the bounded channel and
  the log are values that the functions return.  The websocket connection, the
  `buffer` package and `json.Marshal` are collaborators outside the handler and
  are taken as parameters (`Externals`).
-/

namespace Binance

/-! ## encoding/json: the scanner -/

/-- A JSON value as `encoding/json` reads it.  A number keeps its literal text,
an object keeps its members in source order, duplicates included. -/
inductive Json where
  | null
  | bool (b : Bool)
  | num (literal : String)
  | str (s : String)
  | arr (elems : List Json)
  | obj (members : List (String × Json))
deriving Repr

/-- The four whitespace bytes of the JSON grammar. -/
def isSpace (c : Char) : Bool :=
  c == ' ' || c == '\t' || c == '\r' || c == '\n'

def skipSpace : List Char → List Char
  | [] => []
  | c :: cs => if isSpace c then skipSpace cs else c :: cs

def isDigit (c : Char) : Bool := '0' ≤ c && c ≤ '9'

/-- The longest run of decimal digits at the front, and what follows it. -/
def takeDigits : List Char → List Char × List Char
  | [] => ([], [])
  | c :: cs =>
    if isDigit c then
      let r := takeDigits cs
      (c :: r.1, r.2)
    else ([], c :: cs)

/-- Integer part of a number: a single `0`, or a non-zero digit and more digits. -/
def scanInt : List Char → Option (List Char × List Char)
  | '0' :: cs => some (['0'], cs)
  | c :: cs =>
    if isDigit c then
      let r := takeDigits cs
      some (c :: r.1, r.2)
    else none
  | [] => none

/-- Optional fraction: a dot and at least one digit. -/
def scanFrac : List Char → Option (List Char × List Char)
  | '.' :: cs =>
    match takeDigits cs with
    | ([], _) => none
    | (ds, rest) => some ('.' :: ds, rest)
  | cs => some ([], cs)

def scanExpDigits (pre : List Char) (cs : List Char) : Option (List Char × List Char) :=
  match takeDigits cs with
  | ([], _) => none
  | (ds, rest) => some (pre ++ ds, rest)

/-- Optional exponent: `e` or `E`, an optional sign, at least one digit. -/
def scanExp : List Char → Option (List Char × List Char)
  | 'e' :: '+' :: cs => scanExpDigits ['e', '+'] cs
  | 'e' :: '-' :: cs => scanExpDigits ['e', '-'] cs
  | 'e' :: cs => scanExpDigits ['e'] cs
  | 'E' :: '+' :: cs => scanExpDigits ['E', '+'] cs
  | 'E' :: '-' :: cs => scanExpDigits ['E', '-'] cs
  | 'E' :: cs => scanExpDigits ['E'] cs
  | cs => some ([], cs)

def scanUnsigned (cs : List Char) : Option (List Char × List Char) :=
  match scanInt cs with
  | none => none
  | some (i, r1) =>
    match scanFrac r1 with
    | none => none
    | some (f, r2) =>
      match scanExp r2 with
      | none => none
      | some (e, r3) => some (i ++ f ++ e, r3)

/-- A JSON number literal at the front of the input: its text and the rest. -/
def scanNumber : List Char → Option (List Char × List Char)
  | '-' :: cs =>
    match scanUnsigned cs with
    | none => none
    | some (n, rest) => some ('-' :: n, rest)
  | cs => scanUnsigned cs

/-- What `encoding/json` calls `isValidNumber`: the whole text is one number literal. -/
def isValidNumber (s : String) : Bool :=
  match scanNumber s.data with
  | some (_, []) => true
  | _ => false

/-- The value of a hexadecimal digit, by its code point. -/
def hexVal (c : Char) : Option Nat :=
  let n := c.toNat
  if 48 ≤ n ∧ n ≤ 57 then some (n - 48)
  else if 97 ≤ n ∧ n ≤ 102 then some (n - 87)
  else if 65 ≤ n ∧ n ≤ 70 then some (n - 55)
  else none

/-- A `\uXXXX` escape at the front of the input: its code unit and the rest. -/
def getu4 : List Char → Option (Nat × List Char)
  | '\\' :: 'u' :: a :: b :: c :: d :: rest =>
    match hexVal a, hexVal b, hexVal c, hexVal d with
    | some x, some y, some z, some w => some (((x * 16 + y) * 16 + z) * 16 + w, rest)
    | _, _, _, _ => none
  | _ => none

def isSurrogate (r : Nat) : Bool := 0xD800 ≤ r && r < 0xE000

/-- The code point of a UTF-16 surrogate pair, `none` when the two units are no pair. -/
def decodeRune (r1 r2 : Nat) : Option Nat :=
  if 0xD800 ≤ r1 && r1 < 0xDC00 && 0xDC00 ≤ r2 && r2 < 0xE000 then
    some ((r1 - 0xD800) * 1024 + (r2 - 0xDC00) + 0x10000)
  else none

/-- The simple escapes of a JSON string. -/
def simpleEscape : Char → Option Char
  | 'b' => some (Char.ofNat 8)
  | 't' => some (Char.ofNat 9)
  | 'n' => some (Char.ofNat 10)
  | 'f' => some (Char.ofNat 12)
  | 'r' => some (Char.ofNat 13)
  | '"' => some (Char.ofNat 34)
  | '/' => some (Char.ofNat 47)
  | '\\' => some (Char.ofNat 92)
  | _ => none

/-- The body of a string literal, the opening quote already read: the decoded
characters and the input after the closing quote.  A control character below
0x20, an unknown escape or a missing closing quote is a scan error; a lone
surrogate escape decodes to U+FFFD.  The first argument bounds the number of
characters read (the callers pass the length of the input). -/
def scanString : Nat → List Char → Option (List Char × List Char)
  | 0, _ => none
  | _ + 1, [] => none
  | _ + 1, '"' :: rest => some ([], rest)
  | fuel + 1, '\\' :: 'u' :: cs =>
    match getu4 ('\\' :: 'u' :: cs) with
    | none => none
    | some (rr, rest) =>
      if isSurrogate rr then
        match (getu4 rest).bind (fun p => (decodeRune rr p.1).map (fun d => (d, p.2))) with
        | some (dec, rest2) => (scanString fuel rest2).map (fun r => (Char.ofNat dec :: r.1, r.2))
        | none => (scanString fuel rest).map (fun r => (Char.ofNat 0xFFFD :: r.1, r.2))
      else (scanString fuel rest).map (fun r => (Char.ofNat rr :: r.1, r.2))
  | fuel + 1, '\\' :: c :: cs =>
    match simpleEscape c with
    | none => none
    | some e => (scanString fuel cs).map (fun r => (e :: r.1, r.2))
  | _ + 1, ['\\'] => none
  | fuel + 1, c :: cs =>
    if c.toNat < 0x20 then none
    else (scanString fuel cs).map (fun r => (c :: r.1, r.2))

/-- The scanner of `encoding/json` refuses a value nested deeper than this. -/
def maxNestingDepth : Nat := 10000

mutual
/-- One JSON value at the front of the input (leading whitespace skipped) and
the input after it.  `depth` counts the arrays and objects that are open. -/
def parseValue : Nat → Nat → List Char → Option (Json × List Char)
  | 0, _, _ => none
  | fuel + 1, depth, cs =>
    match skipSpace cs with
    | '{' :: rest =>
      if depth < maxNestingDepth then
        match skipSpace rest with
        | '}' :: rest2 => some (.obj [], rest2)
        | rest2 => (parseMembers fuel (depth + 1) rest2).map (fun r => (.obj r.1, r.2))
      else none
    | '[' :: rest =>
      if depth < maxNestingDepth then
        match skipSpace rest with
        | ']' :: rest2 => some (.arr [], rest2)
        | rest2 => (parseElems fuel (depth + 1) rest2).map (fun r => (.arr r.1, r.2))
      else none
    | '"' :: rest => (scanString (rest.length + 1) rest).map (fun r => (.str (String.mk r.1), r.2))
    | 't' :: 'r' :: 'u' :: 'e' :: rest => some (.bool true, rest)
    | 'f' :: 'a' :: 'l' :: 's' :: 'e' :: rest => some (.bool false, rest)
    | 'n' :: 'u' :: 'l' :: 'l' :: rest => some (.null, rest)
    | rest => (scanNumber rest).map (fun r => (.num (String.mk r.1), r.2))
/-- The members of an object, the input standing at the first key, up to and
including the closing brace. -/
def parseMembers : Nat → Nat → List Char → Option (List (String × Json) × List Char)
  | 0, _, _ => none
  | fuel + 1, depth, cs =>
    match cs with
    | '"' :: rest =>
      match scanString (rest.length + 1) rest with
      | none => none
      | some (key, r1) =>
        match skipSpace r1 with
        | ':' :: r2 =>
          match parseValue fuel depth r2 with
          | none => none
          | some (v, r3) =>
            match skipSpace r3 with
            | ',' :: r4 =>
              (parseMembers fuel depth (skipSpace r4)).map
                (fun r => ((String.mk key, v) :: r.1, r.2))
            | '}' :: r4 => some ([(String.mk key, v)], r4)
            | _ => none
        | _ => none
    | _ => none
/-- The elements of an array, the input standing at the first element, up to
and including the closing bracket. -/
def parseElems : Nat → Nat → List Char → Option (List Json × List Char)
  | 0, _, _ => none
  | fuel + 1, depth, cs =>
    match parseValue fuel depth cs with
    | none => none
    | some (v, r1) =>
      match skipSpace r1 with
      | ',' :: r2 => (parseElems fuel depth r2).map (fun r => (v :: r.1, r.2))
      | ']' :: r2 => some ([v], r2)
      | _ => none
end

/-- A whole JSON text: one value, whitespace around it, nothing else.  `none`
is the `*json.SyntaxError` of `json.Unmarshal`.  Every recursive call of the
scanner reads at least one character first, so the length of the text bounds
the recursion. -/
def parseJSON (s : String) : Option Json :=
  match parseValue (s.length + 2) 0 s.data with
  | none => none
  | some (v, rest) => if (skipSpace rest).isEmpty then some v else none

/-! ## encoding/json: decoding into Go values -/

/-- Case folding of one character of a member key, as far as it can reach an
ASCII field name: the ASCII letters, U+017F (long s) and U+212A (Kelvin sign). -/
def foldRune (c : Char) : Char :=
  if 'a' ≤ c && c ≤ 'z' then Char.ofNat (c.toNat - 32)
  else if c == Char.ofNat 0x17F then 'S'
  else if c == Char.ofNat 0x212A then 'K'
  else c

/-- A member key selects the struct field `name`: `encoding/json` looks a key up
by its exact name and then by its case-folded name.  The names of each struct
below differ under folding, so the folded comparison alone decides. -/
def equalFold (name key : String) : Bool :=
  name.data.map foldRune == key.data.map foldRune

/-- Decoding into a Go `string`: a JSON string sets it, `null` leaves it, any
other value is an `UnmarshalTypeError` (`none`). -/
def decodeString (x : Json) (cur : String) : Option String :=
  match x with
  | .str s => some s
  | .null => some cur
  | _ => none

/-- Decoding into a Go `bool`. -/
def decodeBool (x : Json) (cur : Bool) : Option Bool :=
  match x with
  | .bool b => some b
  | .null => some cur
  | _ => none

/-- The value of a non-empty run of decimal digits. -/
def digitsValue (cs : List Char) : Option Nat :=
  if cs.isEmpty || !cs.all isDigit then none
  else some (cs.foldl (fun n c => 10 * n + (c.toNat - '0'.toNat)) 0)

/-- The `strconv.ParseInt(s, 10, 64)` of a JSON number literal: `none` for a
literal with a fraction or an exponent and for a value outside int64. -/
def ParseInt (s : String) : Option Int :=
  match s.data with
  | '-' :: ds =>
    match digitsValue ds with
    | some n => if n ≤ 2 ^ 63 then some (-(n : Int)) else none
    | none => none
  | ds =>
    match digitsValue ds with
    | some n => if n < 2 ^ 63 then some (n : Int) else none
    | none => none

/-- Decoding into a Go `int64`. -/
def decodeInt64 (x : Json) (cur : Int) : Option Int :=
  match x with
  | .num literal => ParseInt literal
  | .null => some cur
  | _ => none

/-- Decoding into a `json.Number`: a number literal is kept as its text, and so
is a JSON string that spells a valid number. -/
def decodeNumber (x : Json) (cur : String) : Option String :=
  match x with
  | .num literal => some literal
  | .str s => if isValidNumber s then some s else none
  | .null => some cur
  | _ => none

/-- The members of an object decoded in source order into a struct value; the
first member that does not fit its field makes the whole decoding an error. -/
def decodeObject {α : Type} (setField : α → String → Json → Option α) :
    List (String × Json) → α → Option α
  | [], v => some v
  | (key, x) :: ms, v =>
    match setField v key x with
    | none => none
    | some v1 => decodeObject setField ms v1

/-- Decoding into a Go struct: an object sets fields, `null` leaves the struct
as it is, any other value is an `UnmarshalTypeError`. -/
def decodeStruct {α : Type} (setField : α → String → Json → Option α) (x : Json) (v : α) :
    Option α :=
  match x with
  | .obj ms => decodeObject setField ms v
  | .null => some v
  | _ => none

/-- The Go conversion `uint64(x)` of an int64. -/
def uint64 (x : Int) : Nat := (x % 2 ^ 64).toNat

/-! ## The handler's types -/

/-- The errors the handler sees. -/
inductive GoError where
  /-- A `*json.SyntaxError` of `json.Unmarshal`. -/
  | invalidJSON
  /-- A value that does not fit the Go type it is decoded into. -/
  | typeMismatch
  /-- The `errors.New("unknown message type")` of `WrappedCheck`. -/
  | unknownMessageType
  /-- The `fmt.Errorf("unknown message type: %s", message)` of `ProcessMessage`. -/
  | unknownMessageTypeOf (message : String)
  /-- An error reported by a collaborator (connection, buffer, marshaller). -/
  | external (text : String)
deriving DecidableEq, Repr

/-- Modelled from the spec: the declaration of `GlobalMessageStruct` is not in
src/.  Its nested struct `Data` carries the event type found at `data.eventType`. -/
structure GlobalMessageData where
  EventType : String := ""
deriving DecidableEq, Repr

/-- Modelled from the spec: the declaration of `GlobalMessageStruct` is not in
src/.  The handler reads `Data.EventType` and `EventType`; the spec names the
wire fields `data.eventType` and `eventType`. -/
structure GlobalMessageStruct where
  Data : GlobalMessageData := {}
  EventType : String := ""
deriving DecidableEq, Repr

/-- Modelled from the spec: the declaration of `TickerData` is not in src/.
The handler converts `EventTime` with `uint64(…)` and the four price and size
fields with `string(…)`; the spec says that event time is an integer and that
prices and sizes arrive as decimal-string literals which are kept as strings.
The event time is an int64, the prices and sizes are `json.Number`s. -/
structure TickerData where
  EventTime : Int := 0
  Symbol : String := ""
  BidPrice : String := ""
  BidSize : String := ""
  AskPrice : String := ""
  AskSize : String := ""
deriving DecidableEq, Repr

/-- Modelled from the spec: the declaration of `TradeData` is not in src/.
Price and quantity are assigned without a conversion and are Go strings, the
maker flag is a bool. -/
structure TradeData where
  EventTime : Int := 0
  Symbol : String := ""
  Price : String := ""
  Quantity : String := ""
  IsMaker : Bool := false
deriving DecidableEq, Repr

/-- The record `utils.TickerDataStruct` that a buffer ingests. -/
structure TickerDataStruct where
  TimeStamp : Nat
  Symbol : String
  BidPrice : String
  BidSize : String
  AskPrice : String
  AskSize : String
deriving DecidableEq, Repr

/-- The record `utils.TradeDataStruct` that a buffer ingests. -/
structure TradeDataStruct where
  TimeStamp : Nat
  Symbol : String
  Price : String
  Quantity : String
  Bid_MM : Bool
deriving DecidableEq, Repr

def GlobalMessageData.setField (v : GlobalMessageData) (key : String) (x : Json) :
    Option GlobalMessageData :=
  if equalFold "eventType" key then
    (decodeString x v.EventType).map (fun s => { v with EventType := s })
  else some v

def GlobalMessageStruct.setField (v : GlobalMessageStruct) (key : String) (x : Json) :
    Option GlobalMessageStruct :=
  if equalFold "data" key then
    (decodeStruct GlobalMessageData.setField x v.Data).map (fun d => { v with Data := d })
  else if equalFold "eventType" key then
    (decodeString x v.EventType).map (fun s => { v with EventType := s })
  else some v

def TickerData.setField (v : TickerData) (key : String) (x : Json) : Option TickerData :=
  if equalFold "eventTime" key then
    (decodeInt64 x v.EventTime).map (fun t => { v with EventTime := t })
  else if equalFold "symbol" key then
    (decodeString x v.Symbol).map (fun s => { v with Symbol := s })
  else if equalFold "bidPrice" key then
    (decodeNumber x v.BidPrice).map (fun s => { v with BidPrice := s })
  else if equalFold "bidSize" key then
    (decodeNumber x v.BidSize).map (fun s => { v with BidSize := s })
  else if equalFold "askPrice" key then
    (decodeNumber x v.AskPrice).map (fun s => { v with AskPrice := s })
  else if equalFold "askSize" key then
    (decodeNumber x v.AskSize).map (fun s => { v with AskSize := s })
  else some v

def TradeData.setField (v : TradeData) (key : String) (x : Json) : Option TradeData :=
  if equalFold "eventTime" key then
    (decodeInt64 x v.EventTime).map (fun t => { v with EventTime := t })
  else if equalFold "symbol" key then
    (decodeString x v.Symbol).map (fun s => { v with Symbol := s })
  else if equalFold "price" key then
    (decodeString x v.Price).map (fun s => { v with Price := s })
  else if equalFold "quantity" key then
    (decodeString x v.Quantity).map (fun s => { v with Quantity := s })
  else if equalFold "isMaker" key then
    (decodeBool x v.IsMaker).map (fun b => { v with IsMaker := b })
  else some v

/-- What `json.Unmarshal(…, &pMessage)` stores in a `GlobalMessageStruct`. -/
def decodeGlobal (x : Json) (v : GlobalMessageStruct) : Option GlobalMessageStruct :=
  decodeStruct GlobalMessageStruct.setField x v

/-- What `json.Unmarshal(…, &tickerMsg)` stores in a `TickerData`. -/
def decodeTicker (x : Json) (v : TickerData) : Option TickerData :=
  decodeStruct TickerData.setField x v

/-- What `json.Unmarshal(…, &tradeMsg)` stores in a `TradeData`. -/
def decodeTrade (x : Json) (v : TradeData) : Option TradeData :=
  decodeStruct TradeData.setField x v

/-- The local struct of `processWrapped`, one field `Data json.RawMessage`
tagged `data`.  The raw bytes are represented by the value they spell, `none`
for the nil slice of a message without that member. -/
structure WrappedMsg where
  Data : Option Json := none

def WrappedMsg.setField (v : WrappedMsg) (key : String) (x : Json) : Option WrappedMsg :=
  if equalFold "data" key then some { v with Data := some x } else some v

def decodeWrappedMsg (x : Json) (v : WrappedMsg) : Option WrappedMsg :=
  decodeStruct WrappedMsg.setField x v

/-- A byte slice handed to `json.Unmarshal`: the text of a received message, or
the slice a `json.RawMessage` holds, which is the text of one value of a message
that was scanned already and is represented by that value. -/
inductive Bytes where
  | text (s : String)
  | raw (value : Option Json)

/-- The `json.Unmarshal(data, &v)` of the handler: the scan of the whole text
comes first, then the decoding into the target. -/
def Unmarshal {α : Type} (decode : Json → α → Option α) (data : Bytes) (v : α) :
    Except GoError α :=
  let scanned : Option Json :=
    match data with
    | .text s => parseJSON s
    | .raw value => value
  match scanned with
  | none => .error .invalidJSON
  | some x =>
    match decode x v with
    | none => .error .typeMismatch
    | some v1 => .ok v1

/-! ## Small helper functions -/

def WrappedCheck (message : String) : Except GoError Bool :=
  match Unmarshal decodeGlobal (.text message) {} with
  | .error err => .error err
  | .ok pMessage =>
    if pMessage.Data.EventType ≠ "" then .ok true
    else if pMessage.EventType ≠ "" then .ok false
    else .error .unknownMessageType

def extractEventType (msg : GlobalMessageStruct) : String :=
  if msg.Data.EventType ≠ "" then msg.Data.EventType else msg.EventType

/-- The new value of `*bmessage`, or the error. -/
def processWrapped (wrapped : Bool) (message : String) : Except GoError Bytes :=
  if wrapped then
    match Unmarshal decodeWrappedMsg (.text message) {} with
    | .error err => .error err
    | .ok wrappedMsg => .ok (.raw wrappedMsg.Data)
  else .ok (.text message)

/-! ## ProcessMessage -/

/-- The subscribe acknowledgement that `ProcessMessage` compares a message with. -/
def subscribeAck : String := "\x7b\"result\":null,\"id\":5\x7d"

/-- What a call of `ProcessMessage` leaves behind: the two return values and the
two slices behind the pointers it was given. -/
structure ProcessResult where
  dataType : Nat
  err : Option GoError
  tickerData : List TickerDataStruct
  tradeData : List TradeDataStruct
deriving DecidableEq, Repr

def ProcessMessage (message : String) (tickerDataP : List TickerDataStruct)
    (tradeData : List TradeDataStruct) : ProcessResult :=
  if message = subscribeAck then ⟨5, none, tickerDataP, tradeData⟩
  else
    match WrappedCheck message with
    | .error err => ⟨0, some err, tickerDataP, tradeData⟩
    | .ok wrapped =>
      match processWrapped wrapped message with
      | .error err => ⟨0, some err, tickerDataP, tradeData⟩
      | .ok bmessage =>
        match Unmarshal decodeGlobal bmessage {} with
        | .error err => ⟨0, some err, tickerDataP, tradeData⟩
        | .ok pMessage =>
          if extractEventType pMessage = "24hrTicker" then
            match Unmarshal decodeTicker bmessage {} with
            | .error err => ⟨1, some err, tickerDataP, tradeData⟩
            | .ok tickerMsg =>
              ⟨1, none,
                [{ TimeStamp := uint64 tickerMsg.EventTime
                   Symbol := tickerMsg.Symbol
                   BidPrice := tickerMsg.BidPrice
                   BidSize := tickerMsg.BidSize
                   AskPrice := tickerMsg.AskPrice
                   AskSize := tickerMsg.AskSize }],
                tradeData⟩
          else if extractEventType pMessage = "trade" then
            match Unmarshal decodeTrade bmessage {} with
            | .error err => ⟨2, some err, tickerDataP, tradeData⟩
            | .ok tradeMsg =>
              ⟨2, none, tickerDataP,
                [{ TimeStamp := uint64 tradeMsg.EventTime
                   Symbol := tradeMsg.Symbol
                   Price := tradeMsg.Price
                   Quantity := tradeMsg.Quantity
                   Bid_MM := tradeMsg.IsMaker }]⟩
          else ⟨0, some (.unknownMessageTypeOf message), tickerDataP, tradeData⟩

/-! ## Collaborators, configuration and the log -/

/-- What `AddData` is handed: the ticker slice or the trade slice. -/
inductive Records where
  | ticker (data : List TickerDataStruct)
  | trade (data : List TradeDataStruct)
deriving DecidableEq, Repr

/-- Every line the handler writes to its logger, one constructor per call site. -/
inductive LogEntry where
  /-- HandleConnection: "Connection is nil, exiting HandleConnection". -/
  | connectionNil
  /-- InitializeStreams: "Error marshalling subscribe message". -/
  | marshalError (err : GoError)
  /-- InitializeStreams: "Error subscribing to stream". -/
  | subscribeError (err : GoError)
  /-- ConsumeMessages: "Error processing message". -/
  | processError (err : GoError)
  /-- ConsumeMessages: "Unknown message type, skipping message". -/
  | unknownType
  /-- ConsumeMessages: "Subscribe Success". -/
  | subscribeSuccess
  /-- ConsumeMessages: "Error adding data to buffer". -/
  | addDataError (err : GoError)
  /-- ConsumeMessages: "No buffer found for ID". -/
  | noBuffer (bufferCode : String)
  /-- ReceiveMessages: "Error reading message from". -/
  | readError (exchangeName : String) (err : GoError)
  /-- ReceiveMessages: "Producer slowed down". -/
  | producerSlowedDown
  /-- ReceiveMessages: "Message queue full, dropping message for". -/
  | queueFull (exchangeName : String)
deriving DecidableEq, Repr

/-- Modelled from the spec: the package `utils` is not in src/.  One configured
stream: the handler reads `Symbol`, `Type`, `Market` and `Message`. -/
structure StreamConfig (μ : Type) where
  Symbol : String
  Type_ : String
  Market : String
  Message : μ

/-- Modelled from the spec: the package `utils` is not in src/.  The handler
reads the display name and the ordered list of streams. -/
structure ExchangeConfig (μ : Type) where
  Name : String
  Streams : List (StreamConfig μ)

/-- The collaborators of the handler: `json.Marshal` of a subscribe message, the
write side of the websocket connection (state `κ`), and the constructor and the
ingest operation of a buffer (state `β`).  An operation returns the new state of
its receiver and the error it reports. -/
structure Externals (κ β μ : Type) where
  Marshal : μ → Except GoError String
  WriteMessage : κ → String → κ × Option GoError
  NewDataBuffer : String → String → String → Nat → String → String → β
  AddData : β → Records → β × Option GoError

/-- The map `map[string]*buffer.DataBuffer`: the buffer registered under a key. -/
abbrev Registry (β : Type) := String → Option β

/-- The empty map of `make(map[string]*buffer.DataBuffer)`. -/
def Registry.empty {β : Type} : Registry β := fun _ => none

/-- The map after `m[key] = buffer`; also the map after the buffer behind
`m[key]` changed its state. -/
def Registry.set {β : Type} (m : Registry β) (key : String) (buffer : β) : Registry β :=
  fun k => if k = key then some buffer else m k

/-- The `strings.ReplaceAll(exchange.Name, " ", "")` of the handler. -/
def normalizedExchangeName (name : String) : String :=
  String.mk (name.data.filter (fun c => c != ' '))

/-! ## InitializeStreams -/

/-- The registry key `fmt.Sprintf("%s:%s@%s", stream.Symbol, stream.Type, …)`. -/
def InitializeStreams.bufferCode (exchangeName symbol type : String) : String :=
  symbol ++ ":" ++ type ++ "@" ++ normalizedExchangeName exchangeName

def InitializeStreams.filename (exchangeName symbol type : String) : String :=
  normalizedExchangeName exchangeName ++ "_" ++ symbol ++ "_" ++ type ++ ".csv"

def InitializeStreams.filePath (exchangeName symbol : String) : String :=
  "data/" ++ normalizedExchangeName exchangeName ++ "/" ++ symbol

/-- What `InitializeStreams` leaves behind: the connection, the registry behind
`dataBuffers`, the subscribe messages written without error (oldest first), the
log lines and the returned error. -/
structure InitResult (κ β : Type) where
  conn : κ
  dataBuffers : Registry β
  sent : List String
  log : List LogEntry
  err : Option GoError

/-- The `for _, stream := range exchange.Streams` loop of `InitializeStreams`.
The pause between two subscriptions changes no state and is left out. -/
def InitializeStreams.loop {κ β μ : Type} (ext : Externals κ β μ) (exchangeName : String) :
    List (StreamConfig μ) → κ → Registry β → InitResult κ β
  | [], conn, dataBuffers => ⟨conn, dataBuffers, [], [], none⟩
  | stream :: rest, conn, dataBuffers =>
    let marshalled := ext.Marshal stream.Message
    let filename := InitializeStreams.filename exchangeName stream.Symbol stream.Type_
    let bufferCode := InitializeStreams.bufferCode exchangeName stream.Symbol stream.Type_
    let filePath := InitializeStreams.filePath exchangeName stream.Symbol
    let dataBuffers1 := dataBuffers.set bufferCode
      (ext.NewDataBuffer stream.Type_ stream.Market bufferCode 50 filename filePath)
    match marshalled with
    | .error err => ⟨conn, dataBuffers1, [], [.marshalError err], some err⟩
    | .ok bMessage =>
      match ext.WriteMessage conn bMessage with
      | (conn1, some err) => ⟨conn1, dataBuffers1, [], [.subscribeError err], some err⟩
      | (conn1, none) =>
        let r := InitializeStreams.loop ext exchangeName rest conn1 dataBuffers1
        { r with sent := bMessage :: r.sent }

def InitializeStreams {κ β μ : Type} (ext : Externals κ β μ) (conn : κ)
    (exchange : ExchangeConfig μ) : InitResult κ β :=
  InitializeStreams.loop ext exchange.Name exchange.Streams conn Registry.empty

/-- The connection after the given messages were written to it, oldest first. -/
def writeAll {κ β μ : Type} (ext : Externals κ β μ) : κ → List String → κ
  | conn, [] => conn
  | conn, bMessage :: rest => writeAll ext (ext.WriteMessage conn bMessage).1 rest

/-! ## ConsumeMessages -/

/-- What `ConsumeMessages` does that can be seen from outside, in order: the
calls of `ProcessMessage`, the calls of `AddData` on the buffer registered under
a key, and the log lines. -/
inductive ConsumerEvent where
  | processMessage (message : String)
  | addData (bufferCode : String) (data : Records)
  | log (entry : LogEntry)
deriving DecidableEq, Repr

/-- Why `ConsumeMessages` stopped: the channel was closed and drained, `AddData`
reported an error (the `return`), or an index expression was out of range. -/
inductive Exit where
  | queueClosed
  | addDataFailed
  | indexOutOfRange
deriving DecidableEq, Repr

/-- The outcome of one pass through the body of the consumer loop. -/
inductive Flow (β : Type) where
  /-- The body ended or hit `continue`: the loop takes the next message. -/
  | next (buffers : Registry β) (trace : List ConsumerEvent)
  /-- The body left the function. -/
  | exit (buffers : Registry β) (trace : List ConsumerEvent) (why : Exit)

/-- The events of one pass through the body of the consumer loop. -/
def Flow.trace {β : Type} : Flow β → List ConsumerEvent
  | .next _ trace => trace
  | .exit _ trace _ => trace

/-- The registry after one pass through the body of the consumer loop. -/
def Flow.buffers {β : Type} : Flow β → Registry β
  | .next buffers _ => buffers
  | .exit buffers _ _ => buffers

/-- The outcome of the `switch dataType` of the consumer loop. -/
inductive Switch where
  /-- A `continue` after the log line of case 0. -/
  | skip
  /-- A `tickerData[0]` or `tradeData[0]` on an empty slice. -/
  | outOfRange
  /-- The switch ended with this `bufferCode` after these log lines. -/
  | route (bufferCode : String) (log : List LogEntry)
deriving DecidableEq, Repr

def ConsumeMessages.switch (normalizedExchangeName : String) (r : ProcessResult) : Switch :=
  match r.dataType with
  | 0 => .skip
  | 1 =>
    match r.tickerData with
    | [] => .outOfRange
    | t :: _ =>
      .route (if t.Symbol ≠ "" then t.Symbol ++ ":ticker@" ++ normalizedExchangeName else "") []
  | 2 =>
    match r.tradeData with
    | [] => .outOfRange
    | t :: _ =>
      .route (if t.Symbol ≠ "" then t.Symbol ++ ":trade@" ++ normalizedExchangeName else "") []
  | 5 => .route "" [.subscribeSuccess]
  | _ => .route "" []

/-- The body of `for message := range messageQueue`. -/
def ConsumeMessages.body {κ β μ : Type} (ext : Externals κ β μ)
    (normalizedExchangeName : String) (buffers : Registry β) (message : String) : Flow β :=
  let r := ProcessMessage message [] []
  match r.err with
  | some err => .next buffers [.processMessage message, .log (.processError err)]
  | none =>
    match ConsumeMessages.switch normalizedExchangeName r with
    | .skip => .next buffers [.processMessage message, .log .unknownType]
    | .outOfRange => .exit buffers [.processMessage message] .indexOutOfRange
    | .route bufferCode log =>
      let trace := .processMessage message :: log.map ConsumerEvent.log
      if bufferCode ≠ "" then
        match buffers bufferCode with
        | some buffer =>
          let data := if r.dataType = 1 then Records.ticker r.tickerData
            else Records.trade r.tradeData
          match ext.AddData buffer data with
          | (buffer1, some err) =>
            .exit (buffers.set bufferCode buffer1)
              (trace ++ [.addData bufferCode data, .log (.addDataError err)]) .addDataFailed
          | (buffer1, none) =>
            .next (buffers.set bufferCode buffer1) (trace ++ [.addData bufferCode data])
        | none => .next buffers (trace ++ [.log (.noBuffer bufferCode)])
      else .next buffers trace

/-- What `ConsumeMessages` leaves behind. -/
structure ConsumerResult (β : Type) where
  buffers : Registry β
  trace : List ConsumerEvent
  exit : Exit

/-- The consumer loop over the messages that the channel hands over, oldest
first, up to the point where the channel is closed. -/
def ConsumeMessages {κ β μ : Type} (ext : Externals κ β μ) (exchange : ExchangeConfig μ)
    (buffers : Registry β) : List String → ConsumerResult β
  | [] => ⟨buffers, [], .queueClosed⟩
  | message :: rest =>
    match ConsumeMessages.body ext (normalizedExchangeName exchange.Name) buffers message with
    | .next buffers1 trace =>
      let r := ConsumeMessages ext exchange buffers1 rest
      ⟨r.buffers, trace ++ r.trace, r.exit⟩
    | .exit buffers1 trace why => ⟨buffers1, trace, why⟩

/-- The `AddData` calls of a trace, oldest first: the key of the buffer and the
records it was handed. -/
def ingestCalls : List ConsumerEvent → List (String × Records)
  | [] => []
  | .addData bufferCode data :: rest => (bufferCode, data) :: ingestCalls rest
  | _ :: rest => ingestCalls rest

/-- The messages a trace shows as handed to `ProcessMessage`, oldest first. -/
def classified : List ConsumerEvent → List String
  | [] => []
  | .processMessage message :: rest => message :: classified rest
  | _ :: rest => classified rest

/-- The `AddData` call, if any, that the consumer loop makes for one message:
the key of the buffer and the records handed to it. -/
def ConsumeMessages.ingestOf {κ β μ : Type} (ext : Externals κ β μ)
    (normalizedExchangeName : String) (buffers : Registry β) (message : String) :
    Option (String × Records) :=
  (ingestCalls (ConsumeMessages.body ext normalizedExchangeName buffers message).trace).head?

/-- The records that the loop body hands to `AddData` for a classified message:
the ticker slice when the discriminant is 1, the trade slice otherwise. -/
def ConsumeMessages.ingested (r : ProcessResult) : Records :=
  if r.dataType = 1 then Records.ticker r.tickerData else Records.trade r.tradeData

/-- Two registries hold buffers under the same keys. -/
def sameKeys {β : Type} (a b : Registry β) : Prop :=
  ∀ key, (a key).isSome = (b key).isSome

/-- The records of an `AddData` call: exactly one, with a non-empty symbol. -/
def Records.oneWithSymbol : Records → Prop
  | .ticker data => ∃ t, data = [t] ∧ t.Symbol ≠ ""
  | .trade data => ∃ t, data = [t] ∧ t.Symbol ≠ ""

/-! ## ReceiveMessages and the message queue -/

/-- The capacity of `make(chan []byte, 500)` in `HandleConnection`. -/
def messageQueueCapacity : Nat := 500

/-- The receiving side of a connection: the content of the buffered channel
`messageQueue` (oldest first), the messages the channel has handed to its
receiver, the log lines of `ReceiveMessages`, and whether `ReceiveMessages` is
still in its loop. -/
structure Pipeline where
  messageQueue : List String := []
  handedOver : List String := []
  log : List LogEntry := []
  reading : Bool := true
deriving DecidableEq, Repr

/-- One pass through the loop of `ReceiveMessages`, given what `conn.ReadMessage`
returned.  The `select` has a default case, so it never waits: the send case is
ready when the channel has room, the timer channel that `time.After` has just
created is not ready, and the default case runs when no other case is ready. -/
def ReceiveMessages.iteration (capacity : Nat) (exchangeName : String) (s : Pipeline)
    (read : Except GoError String) : Pipeline :=
  match read with
  | .error err => { s with log := s.log ++ [.readError exchangeName err], reading := false }
  | .ok message =>
    if s.messageQueue.length < capacity then
      { s with messageQueue := s.messageQueue ++ [message] }
    else { s with log := s.log ++ [.queueFull exchangeName] }

/-- One step of the two goroutines around the channel: `ReceiveMessages` reads
from the connection and runs its loop body once, or the receiver of the channel
takes the oldest message. -/
inductive PipelineStep where
  | read (result : Except GoError String)
  | dequeue

def Pipeline.step (exchangeName : String) (s : Pipeline) : PipelineStep → Pipeline
  | .read result =>
    if s.reading then ReceiveMessages.iteration messageQueueCapacity exchangeName s result
    else s
  | .dequeue =>
    match s.messageQueue with
    | [] => s
    | message :: rest => { s with messageQueue := rest, handedOver := s.handedOver ++ [message] }

/-- The pipeline after an interleaving of reads and dequeues. -/
def Pipeline.run (exchangeName : String) : List PipelineStep → Pipeline → Pipeline
  | [], s => s
  | st :: rest, s => Pipeline.run exchangeName rest (s.step exchangeName st)

/-- The messages that `ReceiveMessages` reads in an interleaving: those of the
successful reads before the first failed one. -/
def readMessages : List PipelineStep → List String
  | [] => []
  | .read (.ok message) :: rest => message :: readMessages rest
  | .read (.error _) :: _ => []
  | .dequeue :: rest => readMessages rest

/-- The number of "queue full, dropping message" lines in a log. -/
def dropCount (log : List LogEntry) : Nat :=
  (log.filter (fun e => match e with | .queueFull _ => true | _ => false)).length


/-! ## HandleConnection -/

/-- A goroutine that `HandleConnection` starts with `go`: `ConsumeMessages` with
the registry it is handed, or `ReceiveMessages`. -/
inductive Goroutine (β : Type) where
  | consumeMessages (buffers : Registry β)
  | receiveMessages

/-- What `HandleConnection` has done when it reaches `<-interrupt` or returns
before: the outcome of `InitializeStreams` (none when the connection is nil),
the goroutines started, in order, and the log lines. -/
structure HandleResult (κ β : Type) where
  init : Option (InitResult κ β)
  started : List (Goroutine β)
  log : List LogEntry

/-- The part of `HandleConnection` up to the wait for the interrupt signal; a nil
connection is `none`. -/
def HandleConnection {κ β μ : Type} (ext : Externals κ β μ) (conn : Option κ)
    (exchange : ExchangeConfig μ) : HandleResult κ β :=
  match conn with
  | none => ⟨none, [], [.connectionNil]⟩
  | some c =>
    let r := InitializeStreams ext c exchange
    match r.err with
    | some _ => ⟨some r, [], r.log⟩
    | none => ⟨some r, [.consumeMessages r.dataBuffers, .receiveMessages], r.log⟩

/-! ## Concrete inputs -/

/-- The ticker payload of the spec. -/
def specTicker : String :=
  "\x7b\"eventType\":\"24hrTicker\",\"eventTime\":1700000000000,\"symbol\":\"BTCUSDT\",\"bidPrice\":\"50000.00\",\"bidSize\":\"1.0\",\"askPrice\":\"50010.00\",\"askSize\":\"2.0\"\x7d"

/-- The wrapped trade payload of the spec. -/
def specWrappedTrade : String :=
  "\x7b\"data\":\x7b\"eventType\":\"trade\",\"eventTime\":1700000000000,\"symbol\":\"BTCUSDT\",\"price\":\"50000\",\"quantity\":\"0.01\",\"isMaker\":true\x7d\x7d"

/-- The event object inside `specWrappedTrade`, as a bare payload. -/
def specBareTrade : String :=
  "\x7b\"eventType\":\"trade\",\"eventTime\":1700000000000,\"symbol\":\"BTCUSDT\",\"price\":\"50000\",\"quantity\":\"0.01\",\"isMaker\":true\x7d"

/-- The value that `specBareTrade` spells. -/
def specTradeEvent : Json :=
  .obj [("eventType", .str "trade"), ("eventTime", .num "1700000000000"),
    ("symbol", .str "BTCUSDT"), ("price", .str "50000"), ("quantity", .str "0.01"),
    ("isMaker", .bool true)]

/-- The payload without an event type of the spec. -/
def specUnknown : String := "\x7b\"foo\":\"bar\"\x7d"

/-- Collaborators that never fail and keep no state. -/
def idleExternals : Externals Unit Unit Unit where
  Marshal := fun _ => .ok "SUBSCRIBE"
  WriteMessage := fun conn _ => (conn, none)
  NewDataBuffer := fun _ _ _ _ _ _ => ()
  AddData := fun buffer _ => (buffer, none)

/-- A configuration with one ticker stream. -/
def specExchange : ExchangeConfig Unit :=
  ⟨"Binance", [⟨"BTCUSDT", "ticker", "spot", ()⟩]⟩

/-- A configuration whose one ticker stream has the empty symbol. -/
def emptySymbolExchange : ExchangeConfig Unit :=
  ⟨"Binance", [⟨"", "ticker", "spot", ()⟩]⟩

/-- A bare ticker payload without a symbol. -/
def emptySymbolTicker : String := "\x7b\"eventType\":\"24hrTicker\"\x7d"

/-- Collaborators whose buffers refuse every record. -/
def failingExternals : Externals Unit Unit Unit where
  Marshal := fun _ => .ok "SUBSCRIBE"
  WriteMessage := fun conn _ => (conn, none)
  NewDataBuffer := fun _ _ _ _ _ _ => ()
  AddData := fun buffer _ => (buffer, some (.external "disk full"))

/-- The registry that `InitializeStreams` builds for `specExchange`. -/
def specRegistry : Registry Unit :=
  (InitializeStreams idleExternals () specExchange).dataBuffers

/-- Collaborators over a connection that records what was written to it and
refuses the message "bad"; a subscribe message is its own serialization, except
"unserializable", which `json.Marshal` refuses. -/
def recordingExternals : Externals (List String) Unit String where
  Marshal := fun m => if m = "unserializable" then .error (.external "marshal failed") else .ok m
  WriteMessage := fun conn m =>
    if m = "bad" then (conn, some (.external "write failed")) else (conn ++ [m], none)
  NewDataBuffer := fun _ _ _ _ _ _ => ()
  AddData := fun buffer _ => (buffer, none)

/-- Three streams, the second of which cannot be sent. -/
def brokenExchange : ExchangeConfig String :=
  ⟨"Binance", [⟨"BTCUSDT", "ticker", "spot", "sub-btc"⟩, ⟨"ETHUSDT", "trade", "spot", "bad"⟩,
    ⟨"BNBUSDT", "ticker", "spot", "sub-bnb"⟩]⟩

/-- Two streams that can both be sent. -/
def soundExchange : ExchangeConfig String :=
  ⟨"Binance", [⟨"BTCUSDT", "ticker", "spot", "sub-btc"⟩, ⟨"ETHUSDT", "trade", "spot", "sub-eth"⟩]⟩

/-- A configuration with a ticker stream and a trade stream. -/
def bothExchange : ExchangeConfig Unit :=
  ⟨"Binance", [⟨"BTCUSDT", "ticker", "spot", ()⟩, ⟨"BTCUSDT", "trade", "spot", ()⟩]⟩

/-- The registry that `InitializeStreams` builds for `bothExchange`. -/
def bothRegistry : Registry Unit :=
  (InitializeStreams idleExternals () bothExchange).dataBuffers

/-- A bare ticker payload whose event time is a string. -/
def tickerTimeSoon : String := "\x7b\"eventType\":\"24hrTicker\",\"eventTime\":\"soon\"\x7d"

/-- A bare ticker payload whose `data` member is a number. -/
def tickerDataFive : String := "\x7b\"eventType\":\"24hrTicker\",\"data\":5\x7d"

/-- A bare trade event object whose event time is a string, and its wrapped form. -/
def tradeTimeSoon : String := "\x7b\"eventType\":\"trade\",\"eventTime\":\"soon\"\x7d"

def wrappedTradeTimeSoon : String :=
  "\x7b\"data\":\x7b\"eventType\":\"trade\",\"eventTime\":\"soon\"\x7d\x7d"

/-- A bare trade event object whose `data` member is a number, and its wrapped form. -/
def tradeDataFive : String := "\x7b\"eventType\":\"trade\",\"data\":5\x7d"

def wrappedTradeDataFive : String :=
  "\x7b\"data\":\x7b\"eventType\":\"trade\",\"data\":5\x7d\x7d"

/-- A wrapped payload with the tag "foo" whose event object has a number as `data`. -/
def wrappedFooDataFive : String :=
  "\x7b\"data\":\x7b\"eventType\":\"foo\",\"data\":5\x7d\x7d"

/-- The payload of the spec without an event type, cut off before its end. -/
def truncatedUnknown : String := "\x7b\"foo\":\"bar\""

/-- A bare payload and a wrapped payload with the tag "foo". -/
def bareFoo : String := "\x7b\"eventType\":\"foo\"\x7d"

def wrappedFoo : String := "\x7b\"data\":\x7b\"eventType\":\"foo\"\x7d\x7d"

/-! ## Lemmas on the decoders -/

set_option maxRecDepth 100000 in
theorem parseJSON_subscribeAck :
    parseJSON subscribeAck = some (.obj [("result", .null), ("id", .num "5")]) := by
  rfl

/-- A property of a struct that every field assignment keeps is kept by the
decoding of a whole object. -/
theorem decodeObject_invariant {α : Type} (setField : α → String → Json → Option α)
    (P : α → Prop)
    (hstep : ∀ v key x v1, P v → setField v key x = some v1 → P v1) :
    ∀ (ms : List (String × Json)) (v v1 : α), P v → decodeObject setField ms v = some v1 → P v1 := by
  intro ms
  induction ms with
  | nil =>
    intro v v1 hv h
    simp only [decodeObject, Option.some.injEq] at h
    exact h ▸ hv
  | cons m ms ih =>
    intro v v1 hv h
    obtain ⟨key, x⟩ := m
    simp only [decodeObject] at h
    cases hset : setField v key x with
    | none => simp [hset] at h
    | some v2 =>
      simp only [hset] at h
      exact ih v2 v1 (hstep v key x v2 hv hset) h

theorem decodeStruct_invariant {α : Type} (setField : α → String → Json → Option α)
    (P : α → Prop)
    (hstep : ∀ v key x v1, P v → setField v key x = some v1 → P v1)
    (x : Json) (v v1 : α) (hv : P v) (h : decodeStruct setField x v = some v1) : P v1 := by
  cases x with
  | obj ms => exact decodeObject_invariant setField P hstep ms v v1 hv h
  | null =>
    simp only [decodeStruct, Option.some.injEq] at h
    exact h ▸ hv
  | bool b => simp [decodeStruct] at h
  | num l => simp [decodeStruct] at h
  | str s => simp [decodeStruct] at h
  | arr xs => simp [decodeStruct] at h

theorem ParseInt_range (s : String) (n : Int) (h : ParseInt s = some n) :
    -(2 ^ 63) ≤ n ∧ n < 2 ^ 63 := by
  unfold ParseInt at h
  split at h
  · split at h
    · split at h
      · rename_i m _ hm
        simp only [Option.some.injEq] at h
        subst h
        constructor
        · have : (m : Int) ≤ 2 ^ 63 := by exact_mod_cast hm
          omega
        · have : (0 : Int) ≤ m := Int.ofNat_nonneg m
          omega
      · simp at h
    · simp at h
  · split at h
    · split at h
      · rename_i m _ hm
        simp only [Option.some.injEq] at h
        subst h
        constructor
        · have : (0 : Int) ≤ m := Int.ofNat_nonneg m
          omega
        · exact_mod_cast hm
      · simp at h
    · simp at h

theorem decodeInt64_range (x : Json) (cur n : Int)
    (hcur : -(2 ^ 63) ≤ cur ∧ cur < 2 ^ 63) (h : decodeInt64 x cur = some n) :
    -(2 ^ 63) ≤ n ∧ n < 2 ^ 63 := by
  cases x with
  | num l => exact ParseInt_range l n h
  | null =>
    simp only [decodeInt64, Option.some.injEq] at h
    exact h ▸ hcur
  | bool b => simp [decodeInt64] at h
  | str s => simp [decodeInt64] at h
  | arr xs => simp [decodeInt64] at h
  | obj ms => simp [decodeInt64] at h

/-- The event time that `json.Unmarshal` stores in a `TickerData` is an int64. -/
theorem decodeTicker_range (x : Json) (t : TickerData) (h : decodeTicker x {} = some t) :
    -(2 ^ 63) ≤ t.EventTime ∧ t.EventTime < 2 ^ 63 := by
  refine decodeStruct_invariant TickerData.setField
    (fun v => -(2 ^ 63) ≤ v.EventTime ∧ v.EventTime < 2 ^ 63) ?_ x {} t ?_ h
  · intro v key y v1 hv hset
    unfold TickerData.setField at hset
    split at hset
    · cases hd : decodeInt64 y v.EventTime with
      | none => simp [hd] at hset
      | some n =>
        simp only [hd, Option.map_some', Option.some.injEq] at hset
        subst hset
        exact decodeInt64_range y v.EventTime n hv hd
    all_goals
      repeat' split at hset
      all_goals
        first
        | (simp only [Option.some.injEq] at hset; subst hset; exact hv)
        | (simp only [Option.map_eq_some'] at hset
           obtain ⟨a, _, rfl⟩ := hset
           exact hv)
  · constructor <;> norm_num

theorem uint64_of_nonneg (n : Int) (h0 : 0 ≤ n) (h1 : n < 2 ^ 63) : (uint64 n : Int) = n := by
  unfold uint64
  have h2 : n % 2 ^ 64 = n := Int.emod_eq_of_lt h0 (by omega)
  rw [h2]
  exact Int.toNat_of_nonneg h0

/-- A message that scans to an object with an event type at the top level or
under `data` is not the subscribe acknowledgement. -/
theorem ne_subscribeAck_of_eventType (message : String) (x : Json) (g : GlobalMessageStruct)
    (hscan : parseJSON message = some x) (hdec : decodeGlobal x {} = some g)
    (htag : g.Data.EventType ≠ "" ∨ g.EventType ≠ "") : message ≠ subscribeAck := by
  intro heq
  subst heq
  rw [parseJSON_subscribeAck] at hscan
  simp only [Option.some.injEq] at hscan
  subst hscan
  have : decodeGlobal (.obj [("result", .null), ("id", .num "5")]) {} = some {} := by decide
  rw [this] at hdec
  simp only [Option.some.injEq] at hdec
  subst hdec
  simp at htag

/-! ## C1: a bare ticker payload -/

set_option maxRecDepth 100000 in
/-- C1, the claim as stated fails, on two bare payloads that carry the tag
"24hrTicker" and no nested tag.  For `{"eventType":"24hrTicker","eventTime":"soon"}`
`ProcessMessage` returns discriminant 1 together with the decoding error of the
ticker fields and no record.  For `{"eventType":"24hrTicker","data":5}` the
decoding in `WrappedCheck` fails and `ProcessMessage` returns discriminant 0
with that error. -/
theorem ProcessMessage_bare_ticker_counterexample :
    ((parseJSON tickerTimeSoon).bind (fun x => decodeGlobal x {}) =
          some ⟨⟨""⟩, "24hrTicker"⟩ ∧
        ProcessMessage tickerTimeSoon [] [] = ⟨1, some .typeMismatch, [], []⟩) ∧
      (parseJSON tickerDataFive =
          some (.obj [("eventType", .str "24hrTicker"), ("data", .num "5")]) ∧
        ProcessMessage tickerDataFive [] [] = ⟨0, some .typeMismatch, [], []⟩) :=
  ⟨⟨by decide, by decide⟩, rfl, by decide⟩

/-- C1 (amended): for every payload that is valid JSON and that `json.Unmarshal`
decodes into the envelope struct `GlobalMessageStruct` without error, with an
empty nested `data.eventType` (a bare payload) and the top-level `eventType`
"24hrTicker", `ProcessMessage` returns discriminant 1 and leaves the trade
output unchanged.  When moreover the ticker fields of the payload decode without
error (into `t`), there is no error and the ticker output is exactly one record
with the symbol and the bid/ask prices and sizes of the payload as strings, and
with time stamp `uint64` of the event time, which is the event time itself when
that is not negative.  When a ticker field does not decode, the decoding error
is returned and the ticker output is unchanged as well. -/
theorem ProcessMessage_bare_ticker (message : String) (x : Json)
    (tickerDataP : List TickerDataStruct) (tradeData : List TradeDataStruct)
    (hscan : parseJSON message = some x)
    (hbare : decodeGlobal x {} = some ⟨⟨""⟩, "24hrTicker"⟩) :
    (∀ t, decodeTicker x {} = some t →
        ProcessMessage message tickerDataP tradeData =
          ⟨1, none,
            [⟨uint64 t.EventTime, t.Symbol, t.BidPrice, t.BidSize, t.AskPrice, t.AskSize⟩],
            tradeData⟩ ∧
        (0 ≤ t.EventTime → (uint64 t.EventTime : Int) = t.EventTime)) ∧
      (decodeTicker x {} = none →
        ProcessMessage message tickerDataP tradeData =
          ⟨1, some .typeMismatch, tickerDataP, tradeData⟩) := by
  have hne : message ≠ subscribeAck :=
    ne_subscribeAck_of_eventType message x _ hscan hbare (Or.inr (by decide))
  constructor
  · intro t ht
    constructor
    · simp [ProcessMessage, hne, WrappedCheck, Unmarshal, hscan, hbare, processWrapped,
        extractEventType, ht]
    · intro h0
      exact uint64_of_nonneg _ h0 (decodeTicker_range x t ht).2
  · intro ht
    simp [ProcessMessage, hne, WrappedCheck, Unmarshal, hscan, hbare, processWrapped,
      extractEventType, ht]

set_option maxRecDepth 100000 in
/-- C1, witness: the ticker payload of the spec. -/
theorem ProcessMessage_bare_ticker_witness :
    ProcessMessage specTicker [] [] =
      ⟨1, none, [⟨1700000000000, "BTCUSDT", "50000.00", "1.0", "50010.00", "2.0"⟩], []⟩ :=
  have h := (ProcessMessage_bare_ticker specTicker
      (.obj [("eventType", .str "24hrTicker"), ("eventTime", .num "1700000000000"),
        ("symbol", .str "BTCUSDT"), ("bidPrice", .str "50000.00"), ("bidSize", .str "1.0"),
        ("askPrice", .str "50010.00"), ("askSize", .str "2.0")])
      [] [] rfl (by decide)).1
    ⟨1700000000000, "BTCUSDT", "50000.00", "1.0", "50010.00", "2.0"⟩ (by decide)
  h.1

/-! ## C2: a wrapped trade payload -/

/-- A member key selects at most one of two field names that differ under folding. -/
theorem equalFold_unique (a b key : String) (ha : equalFold a key = true)
    (hb : equalFold b key = true) : a.data.map foldRune = b.data.map foldRune := by
  simp only [equalFold, beq_iff_eq] at ha hb
  rw [ha, hb]

/-- Decoding an object into the nested struct `Data` finds the event type that
decoding the same object into the whole `GlobalMessageStruct` puts in `EventType`. -/
theorem decodeObject_data_of_global (ms : List (String × Json)) :
    ∀ (g0 g : GlobalMessageStruct) (d0 : GlobalMessageData),
      decodeObject GlobalMessageStruct.setField ms g0 = some g →
      d0.EventType = g0.EventType →
      ∃ d, decodeObject GlobalMessageData.setField ms d0 = some d ∧
        d.EventType = g.EventType := by
  induction ms with
  | nil =>
    intro g0 g d0 h hd
    simp only [decodeObject, Option.some.injEq] at h
    exact ⟨d0, rfl, h ▸ hd⟩
  | cons m ms ih =>
    intro g0 g d0 h hd
    obtain ⟨key, x⟩ := m
    simp only [decodeObject] at h
    cases hset : GlobalMessageStruct.setField g0 key x with
    | none => simp [hset] at h
    | some g1 =>
      simp only [hset] at h
      have hstep : ∃ d1, GlobalMessageData.setField d0 key x = some d1 ∧
          d1.EventType = g1.EventType := by
        unfold GlobalMessageStruct.setField at hset
        unfold GlobalMessageData.setField
        cases hdata : equalFold "data" key with
        | true =>
          have hnot : equalFold "eventType" key = false := by
            cases hev : equalFold "eventType" key with
            | false => rfl
            | true =>
              have := equalFold_unique "data" "eventType" key hdata hev
              revert this
              decide
          simp only [hdata, if_true, Option.map_eq_some'] at hset
          obtain ⟨d, _, rfl⟩ := hset
          simp only [hnot, Bool.false_eq_true, if_false]
          exact ⟨d0, rfl, hd⟩
        | false =>
          simp only [hdata, Bool.false_eq_true, if_false] at hset
          cases hev : equalFold "eventType" key with
          | true =>
            simp only [hev, if_true, Option.map_eq_some'] at hset ⊢
            obtain ⟨s, hs, rfl⟩ := hset
            exact ⟨⟨s⟩, ⟨s, hd ▸ hs, rfl⟩, rfl⟩
          | false =>
            simp only [hev, Bool.false_eq_true, if_false, Option.some.injEq] at hset ⊢
            subst hset
            exact ⟨d0, rfl, hd⟩
      obtain ⟨d1, hd1, he1⟩ := hstep
      obtain ⟨d, hdd, hde⟩ := ih g1 g d1 h he1
      exact ⟨d, by simp only [decodeObject, hd1, hdd], hde⟩

/-- The envelope `{"data": e}` around a bare event object `e` decodes to a
message whose nested event type is the event type of `e`. -/
theorem decodeGlobal_envelope (e : Json) (tag : String) (htag : tag ≠ "")
    (h : decodeGlobal e {} = some ⟨⟨""⟩, tag⟩) :
    decodeGlobal (.obj [("data", e)]) {} = some ⟨⟨tag⟩, ""⟩ := by
  cases e with
  | obj ms =>
    obtain ⟨d, hd, hde⟩ := decodeObject_data_of_global ms {} ⟨⟨""⟩, tag⟩ {} h rfl
    have hdt : d = ⟨tag⟩ := by
      cases d
      simp only at hde
      rw [hde]
    subst hdt
    have hfold : equalFold "data" "data" = true := by decide
    simp only [decodeGlobal, decodeStruct, decodeObject, GlobalMessageStruct.setField, hfold,
      if_true, hd, Option.map_some']
  | null =>
    simp only [decodeGlobal, decodeStruct, Option.some.injEq, GlobalMessageStruct.mk.injEq] at h
    exact absurd h.2.symm htag
  | bool b => simp [decodeGlobal, decodeStruct] at h
  | num l => simp [decodeGlobal, decodeStruct] at h
  | str s => simp [decodeGlobal, decodeStruct] at h
  | arr xs => simp [decodeGlobal, decodeStruct] at h

/-- The local struct of `processWrapped` captures the event object of an envelope. -/
theorem decodeWrappedMsg_envelope (e : Json) :
    decodeWrappedMsg (.obj [("data", e)]) {} = some ⟨some e⟩ := by
  have hfold : equalFold "data" "data" = true := by decide
  simp [decodeWrappedMsg, decodeStruct, decodeObject, WrappedMsg.setField, hfold]

/-- An envelope is not the subscribe acknowledgement. -/
theorem envelope_ne_subscribeAck (wrapped : String) (e : Json)
    (h : parseJSON wrapped = some (.obj [("data", e)])) : wrapped ≠ subscribeAck := by
  intro heq
  subst heq
  rw [parseJSON_subscribeAck] at h
  simp at h

set_option maxRecDepth 100000 in
/-- C2, the claim as stated fails, on two bare event objects with the tag
"trade".  For `{"eventType":"trade","eventTime":"soon"}` the wrapped form is
unwrapped and classified as a trade, and `ProcessMessage` returns discriminant 2
together with the decoding error and no record, as it does for the bare object.
For `{"eventType":"trade","data":5}` the trade fields decode, but the object
does not decode into the envelope struct, and `ProcessMessage` returns
discriminant 0 with the decoding error for the wrapped and for the bare form. -/
theorem ProcessMessage_wrapped_trade_counterexample :
    ((parseJSON tradeTimeSoon).bind (fun x => decodeGlobal x {}) = some ⟨⟨""⟩, "trade"⟩ ∧
        ProcessMessage wrappedTradeTimeSoon [] [] = ⟨2, some .typeMismatch, [], []⟩ ∧
        ProcessMessage tradeTimeSoon [] [] = ⟨2, some .typeMismatch, [], []⟩) ∧
      (parseJSON tradeDataFive = some (.obj [("eventType", .str "trade"), ("data", .num "5")]) ∧
        parseJSON wrappedTradeDataFive =
          some (.obj [("data", .obj [("eventType", .str "trade"), ("data", .num "5")])]) ∧
        (parseJSON tradeDataFive).bind (fun x => decodeTrade x {}) = some {} ∧
        ProcessMessage wrappedTradeDataFive [] [] = ⟨0, some .typeMismatch, [], []⟩ ∧
        ProcessMessage tradeDataFive [] [] = ⟨0, some .typeMismatch, [], []⟩) :=
  ⟨⟨by decide, by decide, by decide⟩, rfl, rfl, by decide, by decide, by decide⟩

/-- C2 (amended): for every event object `e` that `json.Unmarshal` decodes into
the envelope struct `GlobalMessageStruct` without error, with an empty nested
`data.eventType` (a bare event object) and the top-level `eventType` "trade",
`ProcessMessage` applied to the wrapped form `{"data": e}` unwraps it and
returns exactly what it returns for `e` itself: the same discriminant, the same
error and the same two outputs.  When the trade fields of `e` decode without
error (into `t`), that is discriminant 2, no error, the ticker output unchanged
and exactly one trade record {`uint64` of the event time, symbol, price,
quantity, maker flag}; when a trade field does not decode, it is discriminant 2
with the decoding error and both outputs unchanged. -/
theorem ProcessMessage_wrapped_trade (bare wrapped : String) (e : Json)
    (tickerDataP : List TickerDataStruct) (tradeData : List TradeDataStruct)
    (hbare : parseJSON bare = some e)
    (hwrapped : parseJSON wrapped = some (.obj [("data", e)]))
    (htrade : decodeGlobal e {} = some ⟨⟨""⟩, "trade"⟩) :
    ProcessMessage wrapped tickerDataP tradeData = ProcessMessage bare tickerDataP tradeData ∧
      (∀ t, decodeTrade e {} = some t →
        ProcessMessage wrapped tickerDataP tradeData =
          ⟨2, none, tickerDataP,
            [⟨uint64 t.EventTime, t.Symbol, t.Price, t.Quantity, t.IsMaker⟩]⟩) ∧
      (decodeTrade e {} = none →
        ProcessMessage wrapped tickerDataP tradeData =
          ⟨2, some .typeMismatch, tickerDataP, tradeData⟩) := by
  have hneb : bare ≠ subscribeAck :=
    ne_subscribeAck_of_eventType bare e _ hbare htrade (Or.inr (by decide))
  have hnew : wrapped ≠ subscribeAck := envelope_ne_subscribeAck wrapped e hwrapped
  have henv := decodeGlobal_envelope e "trade" (by decide) htrade
  have hraw := decodeWrappedMsg_envelope e
  have hw : ∀ r, (match decodeTrade e {} with
        | none => (⟨2, some .typeMismatch, tickerDataP, tradeData⟩ : ProcessResult)
        | some t => ⟨2, none, tickerDataP,
            [⟨uint64 t.EventTime, t.Symbol, t.Price, t.Quantity, t.IsMaker⟩]⟩) = r →
      ProcessMessage wrapped tickerDataP tradeData = r := by
    intro r hr
    rw [← hr]
    cases ht : decodeTrade e {} <;>
      simp [ProcessMessage, hnew, WrappedCheck, Unmarshal, hwrapped, henv, hraw, processWrapped,
        extractEventType, htrade, ht]
  refine ⟨?_, ?_, ?_⟩
  · apply hw
    cases ht : decodeTrade e {} <;>
      simp [ProcessMessage, hneb, WrappedCheck, Unmarshal, hbare, processWrapped,
        extractEventType, htrade, ht]
  · intro t ht
    apply hw
    rw [ht]
  · intro ht
    apply hw
    rw [ht]

set_option maxRecDepth 100000 in
/-- C2, witness: the wrapped trade payload of the spec. -/
theorem ProcessMessage_wrapped_trade_witness :
    ProcessMessage specWrappedTrade [] [] = ProcessMessage specBareTrade [] [] ∧
      ProcessMessage specWrappedTrade [] [] =
        ⟨2, none, [], [⟨1700000000000, "BTCUSDT", "50000", "0.01", true⟩]⟩ :=
  have h := ProcessMessage_wrapped_trade specBareTrade specWrappedTrade specTradeEvent [] []
    rfl rfl (by decide)
  ⟨h.1, h.2.1 ⟨1700000000000, "BTCUSDT", "50000", "0.01", true⟩ (by decide)⟩

/-! ## C3: the subscribe acknowledgement -/

/-- C3: for the exact byte sequence `{"result":null,"id":5}`, `ProcessMessage`
returns discriminant 5 with no error and leaves the ticker and trade outputs as
they were, and the consumer loop, for every registry and every exchange name,
handles that message with one log line and no call of `AddData`, leaving every
buffer of the registry as it was. -/
theorem subscribeAck_is_acknowledged {κ β μ : Type} (ext : Externals κ β μ)
    (exchange : ExchangeConfig μ) (buffers : Registry β)
    (tickerDataP : List TickerDataStruct) (tradeData : List TradeDataStruct) :
    subscribeAck = "\x7b\"result\":null,\"id\":5\x7d" ∧
      ProcessMessage subscribeAck tickerDataP tradeData = ⟨5, none, tickerDataP, tradeData⟩ ∧
      ConsumeMessages.body ext (normalizedExchangeName exchange.Name) buffers subscribeAck =
        .next buffers [.processMessage subscribeAck, .log .subscribeSuccess] ∧
      ingestCalls (ConsumeMessages ext exchange buffers [subscribeAck]).trace = [] ∧
      (ConsumeMessages ext exchange buffers [subscribeAck]).buffers = buffers := by
  have hp : ∀ tk td, ProcessMessage subscribeAck tk td = ⟨5, none, tk, td⟩ := by
    intro tk td
    simp [ProcessMessage]
  have hb : ConsumeMessages.body ext (normalizedExchangeName exchange.Name) buffers subscribeAck =
      .next buffers [.processMessage subscribeAck, .log .subscribeSuccess] := by
    simp [ConsumeMessages.body, hp, ConsumeMessages.switch]
  refine ⟨rfl, hp _ _, hb, ?_, ?_⟩
  · simp [ConsumeMessages, hb, ingestCalls]
  · simp [ConsumeMessages, hb]

/-! ## C4: unknown message types -/

set_option maxRecDepth 100000 in
/-- C4, the claim as stated fails, on two payloads other than the
acknowledgement.  `{"data":{"eventType":"foo","data":5}}` carries the tag "foo"
at `data.eventType`, which is neither "24hrTicker" nor "trade"; it is unwrapped,
the unwrapped object does not decode, and `ProcessMessage` returns the decoding
error, which is no "unknown message type" error.  The cut-off text `{"foo":"bar"`
carries no tag at all, and `ProcessMessage` returns the syntax error of
`json.Unmarshal`. -/
theorem ProcessMessage_unknown_type_counterexample :
    (wrappedFooDataFive ≠ subscribeAck ∧
        ((parseJSON wrappedFooDataFive).bind (fun x => decodeGlobal x {})).map
          extractEventType = some "foo" ∧
        ProcessMessage wrappedFooDataFive [] [] = ⟨0, some .typeMismatch, [], []⟩) ∧
      (truncatedUnknown ≠ subscribeAck ∧
        ProcessMessage truncatedUnknown [] [] = ⟨0, some .invalidJSON, [], []⟩) := by
  decide

/-- C4 (amended): for every payload other than the acknowledgement sentinel that
is valid JSON and that `json.Unmarshal` decodes into the envelope struct
`GlobalMessageStruct` without error (into `g`), `ProcessMessage` fails with an
"unknown message type" error, returns discriminant 0 and leaves both outputs
unchanged in each of these cases: (a) the event-type tag is absent or empty both
at `data.eventType` and at the top level; (b) the payload is bare (`data.eventType`
empty) and its top-level tag is not empty and neither "24hrTicker" nor "trade";
(c) the payload is wrapped (`data.eventType` not empty), the event object `e`
that `processWrapped` extracts from it (the value of its `data` member) decodes
into the envelope struct without error (into `p`), has no nested `data.eventType`
of its own, and its `eventType` is neither "24hrTicker" nor "trade". -/
theorem ProcessMessage_unknown_type (message : String) (x : Json) (g : GlobalMessageStruct)
    (tickerDataP : List TickerDataStruct) (tradeData : List TradeDataStruct)
    (hne : message ≠ subscribeAck)
    (hscan : parseJSON message = some x)
    (hdec : decodeGlobal x {} = some g) :
    (g.Data.EventType = "" → g.EventType = "" →
        ProcessMessage message tickerDataP tradeData =
          ⟨0, some .unknownMessageType, tickerDataP, tradeData⟩) ∧
      (g.Data.EventType = "" → g.EventType ≠ "" →
        g.EventType ≠ "24hrTicker" → g.EventType ≠ "trade" →
        ProcessMessage message tickerDataP tradeData =
          ⟨0, some (.unknownMessageTypeOf message), tickerDataP, tradeData⟩) ∧
      (g.Data.EventType ≠ "" →
        ∀ (e : Json) (p : GlobalMessageStruct),
          decodeWrappedMsg x {} = some ⟨some e⟩ → decodeGlobal e {} = some p →
          p.Data.EventType = "" → p.EventType ≠ "24hrTicker" → p.EventType ≠ "trade" →
          ProcessMessage message tickerDataP tradeData =
            ⟨0, some (.unknownMessageTypeOf message), tickerDataP, tradeData⟩) := by
  refine ⟨?_, ?_, ?_⟩
  · intro h1 h2
    simp [ProcessMessage, hne, WrappedCheck, Unmarshal, hscan, hdec, h1, h2]
  · intro h1 h2 h3 h4
    simp [ProcessMessage, hne, WrappedCheck, Unmarshal, hscan, hdec, h1, h2, h3, h4,
      processWrapped, extractEventType]
  · intro h1 e p hw hp h2 h3 h4
    simp [ProcessMessage, hne, WrappedCheck, Unmarshal, hscan, hdec, h1, hw, hp, h2, h3, h4,
      processWrapped, extractEventType]

set_option maxRecDepth 100000 in
/-- C4, witness: the payload `{"foo":"bar"}` of the spec for case (a), the bare
payload `{"eventType":"foo"}` for case (b) and the wrapped payload
`{"data":{"eventType":"foo"}}` for case (c). -/
theorem ProcessMessage_unknown_type_witness :
    ProcessMessage specUnknown [] [] = ⟨0, some .unknownMessageType, [], []⟩ ∧
      ProcessMessage bareFoo [] [] = ⟨0, some (.unknownMessageTypeOf bareFoo), [], []⟩ ∧
      ProcessMessage wrappedFoo [] [] = ⟨0, some (.unknownMessageTypeOf wrappedFoo), [], []⟩ :=
  ⟨(ProcessMessage_unknown_type specUnknown (.obj [("foo", .str "bar")]) {} [] []
      (by decide) rfl (by decide)).1 rfl rfl,
    (ProcessMessage_unknown_type bareFoo (.obj [("eventType", .str "foo")]) ⟨⟨""⟩, "foo"⟩ [] []
      (by decide) rfl (by decide)).2.1 rfl (by decide) (by decide) (by decide),
    (ProcessMessage_unknown_type wrappedFoo (.obj [("data", .obj [("eventType", .str "foo")])])
      ⟨⟨"foo"⟩, ""⟩ [] [] (by decide) rfl (by decide)).2.2 (by decide)
      (.obj [("eventType", .str "foo")]) ⟨⟨""⟩, "foo"⟩ rfl (by decide) rfl (by decide)
      (by decide)⟩

/-! ## C5: the registry key and the routing key -/

/-- A key that is in the registry stays in it while `InitializeStreams` loops. -/
theorem InitializeStreams_loop_keeps {κ β μ : Type} (ext : Externals κ β μ)
    (exchangeName : String) (streams : List (StreamConfig μ)) :
    ∀ (conn : κ) (m : Registry β) (key : String), (m key).isSome = true →
      ((InitializeStreams.loop ext exchangeName streams conn m).dataBuffers key).isSome = true := by
  induction streams with
  | nil =>
    intro conn m key h
    simpa [InitializeStreams.loop] using h
  | cons stream rest ih =>
    intro conn m key h
    have hset : ∀ (k : String) (b : β), ((m.set k b) key).isSome = true := by
      intro k b
      unfold Registry.set
      split
      · rfl
      · exact h
    simp only [InitializeStreams.loop]
    split
    · exact hset _ _
    · split
      · exact hset _ _
      · exact ih _ _ key (hset _ _)

/-- When `InitializeStreams` returns no error, every stream has its key in the registry. -/
theorem InitializeStreams_loop_registers {κ β μ : Type} (ext : Externals κ β μ)
    (exchangeName : String) (streams : List (StreamConfig μ)) :
    ∀ (conn : κ) (m : Registry β),
      (InitializeStreams.loop ext exchangeName streams conn m).err = none →
      ∀ stream ∈ streams,
        ((InitializeStreams.loop ext exchangeName streams conn m).dataBuffers
          (InitializeStreams.bufferCode exchangeName stream.Symbol stream.Type_)).isSome = true := by
  induction streams with
  | nil =>
    intro conn m _ stream hmem
    simp at hmem
  | cons first rest ih =>
    intro conn m herr stream hmem
    simp only [InitializeStreams.loop] at herr ⊢
    split at herr
    · simp at herr
    · split at herr
      · simp at herr
      · rcases List.mem_cons.1 hmem with heq | hrest
        · subst heq
          apply InitializeStreams_loop_keeps
          simp [Registry.set]
        · exact ih _ _ herr stream hrest

/-- The key of `ConsumeMessages` for a record is the key of `InitializeStreams`
for a stream of the same symbol and kind. -/
theorem routing_key_eq_bufferCode (exchangeName symbol : String) :
    symbol ++ ":ticker@" ++ normalizedExchangeName exchangeName =
        InitializeStreams.bufferCode exchangeName symbol "ticker" ∧
      symbol ++ ":trade@" ++ normalizedExchangeName exchangeName =
        InitializeStreams.bufferCode exchangeName symbol "trade" := by
  constructor <;>
    · apply String.ext
      simp [InitializeStreams.bufferCode, String.data_append]

/-- C5, the claim as stated fails: for the stream with the empty symbol and type
"ticker" on "Binance", `InitializeStreams` registers a buffer under
":ticker@Binance", while `ConsumeMessages` computes no routing key for a ticker
record with the empty symbol (`bufferCode` stays empty), looks nothing up and
calls no `AddData`. -/
theorem routing_key_empty_symbol_counterexample :
    (InitializeStreams idleExternals () emptySymbolExchange).err = none ∧
      ((InitializeStreams idleExternals () emptySymbolExchange).dataBuffers
        (InitializeStreams.bufferCode "Binance" "" "ticker")).isSome = true ∧
      InitializeStreams.bufferCode "Binance" "" "ticker" = ":ticker@Binance" ∧
      ProcessMessage emptySymbolTicker [] [] = ⟨1, none, [⟨0, "", "", "", "", ""⟩], []⟩ ∧
      ConsumeMessages.switch (normalizedExchangeName "Binance")
        (ProcessMessage emptySymbolTicker [] []) = .route "" [] ∧
      (ConsumeMessages.body idleExternals (normalizedExchangeName "Binance")
        (InitializeStreams idleExternals () emptySymbolExchange).dataBuffers
        emptySymbolTicker).trace = [.processMessage emptySymbolTicker] := by
  decide

/-- C5 (amended): for every exchange name and every configured stream with a
non-empty symbol `s` and type "ticker" or "trade", once `InitializeStreams` has
returned without error the registry holds a buffer under the key built for that
stream, that key equals the routing key `ConsumeMessages` computes for a
classified record of the same kind with symbol `s`, and a message classified as
such a record is handed to `AddData` of the buffer under that key. -/
theorem routing_key_hits_registry {κ β μ : Type} (ext : Externals κ β μ) (conn : κ)
    (exchange : ExchangeConfig μ) (stream : StreamConfig μ)
    (hmem : stream ∈ exchange.Streams) (hsym : stream.Symbol ≠ "")
    (hinit : (InitializeStreams ext conn exchange).err = none) :
    ((InitializeStreams ext conn exchange).dataBuffers
        (InitializeStreams.bufferCode exchange.Name stream.Symbol stream.Type_)).isSome = true ∧
      (stream.Type_ = "ticker" →
        ∀ (message : String) (t : TickerDataStruct),
          ProcessMessage message [] [] = ⟨1, none, [t], []⟩ → t.Symbol = stream.Symbol →
          ConsumeMessages.switch (normalizedExchangeName exchange.Name)
              (ProcessMessage message [] []) =
            .route (InitializeStreams.bufferCode exchange.Name stream.Symbol stream.Type_) [] ∧
          ingestCalls (ConsumeMessages.body ext (normalizedExchangeName exchange.Name)
              (InitializeStreams ext conn exchange).dataBuffers message).trace =
            [(InitializeStreams.bufferCode exchange.Name stream.Symbol stream.Type_,
              .ticker [t])]) ∧
      (stream.Type_ = "trade" →
        ∀ (message : String) (t : TradeDataStruct),
          ProcessMessage message [] [] = ⟨2, none, [], [t]⟩ → t.Symbol = stream.Symbol →
          ConsumeMessages.switch (normalizedExchangeName exchange.Name)
              (ProcessMessage message [] []) =
            .route (InitializeStreams.bufferCode exchange.Name stream.Symbol stream.Type_) [] ∧
          ingestCalls (ConsumeMessages.body ext (normalizedExchangeName exchange.Name)
              (InitializeStreams ext conn exchange).dataBuffers message).trace =
            [(InitializeStreams.bufferCode exchange.Name stream.Symbol stream.Type_,
              .trade [t])]) := by
  have hreg := InitializeStreams_loop_registers ext exchange.Name exchange.Streams conn
    Registry.empty hinit stream hmem
  have hkeys := routing_key_eq_bufferCode exchange.Name stream.Symbol
  have hne : ∀ ty, InitializeStreams.bufferCode exchange.Name stream.Symbol ty ≠ "" := by
    intro ty h
    have := congrArg String.data h
    simp only [InitializeStreams.bufferCode, String.data_append] at this
    cases hs : stream.Symbol.data with
    | nil => exact hsym (String.ext hs)
    | cons c cs => simp [hs] at this
  refine ⟨hreg, ?_, ?_⟩
  · intro hty message t hp ht
    rw [hty] at hreg ⊢
    have hsw : ConsumeMessages.switch (normalizedExchangeName exchange.Name)
        (ProcessMessage message [] []) =
        .route (InitializeStreams.bufferCode exchange.Name stream.Symbol "ticker") [] := by
      simp [hp, ConsumeMessages.switch, ht, hsym, hkeys.1]
    refine ⟨hsw, ?_⟩
    unfold InitializeStreams
    cases hb : (InitializeStreams.loop ext exchange.Name exchange.Streams conn Registry.empty).dataBuffers
        (InitializeStreams.bufferCode exchange.Name stream.Symbol "ticker") with
    | none => simp [hb] at hreg
    | some buffer =>
      simp only [ConsumeMessages.body, hsw]
      simp only [hp, hne, hb, ne_eq, not_false_eq_true, if_true]
      cases ha : ext.AddData buffer (Records.ticker [t]) with
      | mk b1 e1 =>
        cases e1 <;> simp [ha, Flow.trace, ingestCalls]
  · intro hty message t hp ht
    rw [hty] at hreg ⊢
    have hsw : ConsumeMessages.switch (normalizedExchangeName exchange.Name)
        (ProcessMessage message [] []) =
        .route (InitializeStreams.bufferCode exchange.Name stream.Symbol "trade") [] := by
      simp [hp, ConsumeMessages.switch, ht, hsym, hkeys.2]
    refine ⟨hsw, ?_⟩
    unfold InitializeStreams
    cases hb : (InitializeStreams.loop ext exchange.Name exchange.Streams conn Registry.empty).dataBuffers
        (InitializeStreams.bufferCode exchange.Name stream.Symbol "trade") with
    | none => simp [hb] at hreg
    | some buffer =>
      simp only [ConsumeMessages.body, hsw]
      simp only [hp, hne, hb, ne_eq, not_false_eq_true, if_true]
      cases ha : ext.AddData buffer (Records.trade [t]) with
      | mk b1 e1 =>
        cases e1 <;> simp [ha, Flow.trace, ingestCalls]

set_option maxRecDepth 100000 in
/-- C5, witness: the stream BTCUSDT/ticker on "Binance" and the ticker payload of the spec. -/
theorem routing_key_hits_registry_witness :
    ingestCalls (ConsumeMessages.body idleExternals (normalizedExchangeName "Binance")
        (InitializeStreams idleExternals () specExchange).dataBuffers specTicker).trace =
      [("BTCUSDT:ticker@Binance",
        .ticker [⟨1700000000000, "BTCUSDT", "50000.00", "1.0", "50010.00", "2.0"⟩])] :=
  ((routing_key_hits_registry idleExternals () specExchange ⟨"BTCUSDT", "ticker", "spot", ()⟩
      (List.Mem.head _) (by decide) rfl).2.1 rfl specTicker
    ⟨1700000000000, "BTCUSDT", "50000.00", "1.0", "50010.00", "2.0"⟩ (by decide) rfl).2

/-! ## C6: how far the routing key determines its parts -/

/-- Two lists that agree after being cut at the first occurrence of a separator
agree on both sides of it. -/
theorem split_at_first {α : Type} (sep : α) :
    ∀ (a c b d : List α), sep ∉ a → sep ∉ c → a ++ sep :: b = c ++ sep :: d → a = c ∧ b = d := by
  intro a
  induction a with
  | nil =>
    intro c b d _ hc h
    cases c with
    | nil => exact ⟨rfl, by simpa using h⟩
    | cons y c1 =>
      simp only [List.nil_append, List.cons_append, List.cons.injEq] at h
      exact absurd (h.1 ▸ List.mem_cons_self _ _) hc
  | cons x a1 ih =>
    intro c b d ha hc h
    cases c with
    | nil =>
      simp only [List.nil_append, List.cons_append, List.cons.injEq] at h
      exact absurd (h.1 ▸ List.mem_cons_self _ _) ha
    | cons y c1 =>
      simp only [List.cons_append, List.cons.injEq] at h
      have ha1 : sep ∉ a1 := fun hm => ha (List.mem_cons_of_mem _ hm)
      have hc1 : sep ∉ c1 := fun hm => hc (List.mem_cons_of_mem _ hm)
      obtain ⟨h1, h2⟩ := ih c1 b d ha1 hc1 h.2
      exact ⟨by rw [h.1, h1], h2⟩

/-- The same, cutting at the last occurrence of the separator. -/
theorem split_at_last {α : Type} (sep : α) (a c b d : List α) (hb : sep ∉ b) (hd : sep ∉ d)
    (h : a ++ sep :: b = c ++ sep :: d) : a = c ∧ b = d := by
  have hr := congrArg List.reverse h
  simp only [List.reverse_append, List.reverse_cons, List.append_assoc, List.singleton_append]
    at hr
  obtain ⟨h1, h2⟩ := split_at_first sep b.reverse d.reverse a.reverse c.reverse
    (by simpa using hb) (by simpa using hd) hr
  exact ⟨List.reverse_injective h2, List.reverse_injective h1⟩

/-- The two stream types contain neither separator of the key. -/
theorem stream_type_separators (t : String) (ht : t = "ticker" ∨ t = "trade") :
    ':' ∉ t.data ∧ '@' ∉ t.data := by
  rcases ht with rfl | rfl <;> decide

/-- The characters of a registry key. -/
theorem bufferCode_data (exchangeName symbol type : String) :
    (InitializeStreams.bufferCode exchangeName symbol type).data =
      symbol.data ++ ':' :: (type.data ++ '@' :: (normalizedExchangeName exchangeName).data) := by
  simp [InitializeStreams.bufferCode, String.data_append]

/-- C6, the claim as stated fails: the display names "Bin ance" and "Binance"
differ, and the triples (BTCUSDT, ticker, "Bin ance") and (BTCUSDT, ticker,
"Binance") have the same routing key. -/
theorem bufferCode_not_injective_counterexample :
    ("BTCUSDT", "ticker", "Bin ance") ≠ ("BTCUSDT", "ticker", "Binance") ∧
      InitializeStreams.bufferCode "Bin ance" "BTCUSDT" "ticker" =
        InitializeStreams.bufferCode "Binance" "BTCUSDT" "ticker" := by
  decide

/-- C6 (amended): the routing key "<symbol>:<type>@<exchange name with spaces
removed>" determines the symbol, the type and the exchange name with its spaces
removed, not the display name.  For types "ticker" and "trade": two triples
whose exchange names agree once spaces are removed (so any two streams of one
configuration) have the same key exactly when they have the same symbol and
type; and two triples whose symbols contain no colon have the same key exactly
when symbol, type and the exchange name with spaces removed are the same. -/
theorem bufferCode_injective (e1 e2 s1 s2 t1 t2 : String)
    (ht1 : t1 = "ticker" ∨ t1 = "trade") (ht2 : t2 = "ticker" ∨ t2 = "trade") :
    (normalizedExchangeName e1 = normalizedExchangeName e2 →
        (InitializeStreams.bufferCode e1 s1 t1 = InitializeStreams.bufferCode e2 s2 t2 ↔
          s1 = s2 ∧ t1 = t2)) ∧
      (':' ∉ s1.data → ':' ∉ s2.data →
        (InitializeStreams.bufferCode e1 s1 t1 = InitializeStreams.bufferCode e2 s2 t2 ↔
          s1 = s2 ∧ t1 = t2 ∧ normalizedExchangeName e1 = normalizedExchangeName e2)) := by
  have hsep1 := stream_type_separators t1 ht1
  have hsep2 := stream_type_separators t2 ht2
  constructor
  · intro hn
    constructor
    · intro h
      have hd := congrArg String.data h
      rw [bufferCode_data, bufferCode_data, hn] at hd
      have hd2 : (s1.data ++ ':' :: (t1.data ++ ['@'])) ++ (normalizedExchangeName e2).data =
          (s2.data ++ ':' :: (t2.data ++ ['@'])) ++ (normalizedExchangeName e2).data := by
        simpa using hd
      have hd3 := List.append_cancel_right hd2
      have hnot : ∀ t : String, ':' ∉ t.data → ':' ∉ t.data ++ ['@'] := by
        intro t ht hm
        rcases List.mem_append.1 hm with hm1 | hm1
        · exact ht hm1
        · simp at hm1
      obtain ⟨h1, h2⟩ := split_at_last ':' _ _ _ _ (hnot t1 hsep1.1) (hnot t2 hsep2.1) hd3
      exact ⟨String.ext h1, String.ext (List.append_cancel_right h2)⟩
    · rintro ⟨rfl, rfl⟩
      apply String.ext
      rw [bufferCode_data, bufferCode_data, hn]
  · intro hs1 hs2
    constructor
    · intro h
      have hd := congrArg String.data h
      rw [bufferCode_data, bufferCode_data] at hd
      obtain ⟨h1, h2⟩ := split_at_first ':' _ _ _ _ hs1 hs2 hd
      obtain ⟨h3, h4⟩ := split_at_first '@' _ _ _ _ hsep1.2 hsep2.2 h2
      exact ⟨String.ext h1, String.ext h3, String.ext h4⟩
    · rintro ⟨rfl, rfl, hn⟩
      apply String.ext
      rw [bufferCode_data, bufferCode_data, hn]

/-- C6, witness: on "Binance" the BTCUSDT and ETHUSDT tickers have different
keys, and the BTCUSDT ticker and trade keys agree only if "ticker" is "trade". -/
theorem bufferCode_injective_witness :
    InitializeStreams.bufferCode "Binance" "BTCUSDT" "ticker" ≠
        InitializeStreams.bufferCode "Binance" "ETHUSDT" "ticker" ∧
      (InitializeStreams.bufferCode "Binance" "BTCUSDT" "ticker" =
          InitializeStreams.bufferCode "Binance" "BTCUSDT" "trade" ↔
        "BTCUSDT" = "BTCUSDT" ∧ "ticker" = "trade" ∧
          normalizedExchangeName "Binance" = normalizedExchangeName "Binance") :=
  ⟨fun h =>
      absurd (((bufferCode_injective "Binance" "Binance" "BTCUSDT" "ETHUSDT" "ticker" "ticker"
        (Or.inl rfl) (Or.inl rfl)).1 rfl).1 h).1 (by decide),
    (bufferCode_injective "Binance" "Binance" "BTCUSDT" "BTCUSDT" "ticker" "trade"
      (Or.inl rfl) (Or.inr rfl)).2 (by decide) (by decide)⟩

/-! ## C7: the bounded message queue -/

/-- The messages that went into the channel: those handed over and those waiting. -/
theorem Pipeline.step_dequeue_accepted (exchangeName : String) (s : Pipeline) :
    (s.step exchangeName .dequeue).handedOver ++ (s.step exchangeName .dequeue).messageQueue =
        s.handedOver ++ s.messageQueue ∧
      (s.step exchangeName .dequeue).log = s.log ∧
      (s.step exchangeName .dequeue).reading = s.reading ∧
      (s.step exchangeName .dequeue).messageQueue.length ≤ s.messageQueue.length := by
  unfold Pipeline.step
  cases h : s.messageQueue with
  | nil => simp [h]
  | cons m rest => simp

theorem dropCount_append (log : List LogEntry) (e : LogEntry) :
    dropCount (log ++ [e]) =
      dropCount log + (match e with | .queueFull _ => 1 | _ => 0) := by
  unfold dropCount
  cases e <;> simp [List.filter_append]

/-- One step keeps the queue within its capacity. -/
theorem Pipeline.step_bounded (exchangeName : String) (s : Pipeline) (st : PipelineStep)
    (h : s.messageQueue.length ≤ messageQueueCapacity) :
    (s.step exchangeName st).messageQueue.length ≤ messageQueueCapacity := by
  cases st with
  | dequeue => exact le_trans (Pipeline.step_dequeue_accepted exchangeName s).2.2.2 h
  | read result =>
    by_cases hr : s.reading = true
    · cases result with
      | error err => simpa [Pipeline.step, hr, ReceiveMessages.iteration] using h
      | ok message =>
        by_cases hroom : s.messageQueue.length < messageQueueCapacity
        · simp only [Pipeline.step, hr, if_true, ReceiveMessages.iteration, hroom,
            List.length_append, List.length_singleton]
          omega
        · simpa [Pipeline.step, hr, ReceiveMessages.iteration, hroom] using h
    · simpa [Pipeline.step, hr] using h

/-- The queue never grows beyond its capacity. -/
theorem Pipeline.run_bounded (exchangeName : String) (steps : List PipelineStep) :
    ∀ s : Pipeline, s.messageQueue.length ≤ messageQueueCapacity →
      (Pipeline.run exchangeName steps s).messageQueue.length ≤ messageQueueCapacity := by
  induction steps with
  | nil => intro s h; exact h
  | cons st rest ih =>
    intro s h
    exact ih _ (Pipeline.step_bounded exchangeName s st h)

/-- Once `ReceiveMessages` has returned, nothing enters the channel and nothing is logged as dropped. -/
theorem Pipeline.run_stopped (exchangeName : String) (steps : List PipelineStep) :
    ∀ s : Pipeline, s.reading = false →
      (Pipeline.run exchangeName steps s).handedOver ++
          (Pipeline.run exchangeName steps s).messageQueue = s.handedOver ++ s.messageQueue ∧
        dropCount (Pipeline.run exchangeName steps s).log = dropCount s.log := by
  induction steps with
  | nil => intro s _; exact ⟨rfl, rfl⟩
  | cons st rest ih =>
    intro s h
    cases st with
    | dequeue =>
      obtain ⟨h1, h2, h3, _⟩ := Pipeline.step_dequeue_accepted exchangeName s
      obtain ⟨i1, i2⟩ := ih (s.step exchangeName .dequeue) (h3.trans h)
      exact ⟨i1.trans h1, i2.trans (by rw [h2])⟩
    | read result =>
      have hs : s.step exchangeName (.read result) = s := by simp [Pipeline.step, h]
      simpa [Pipeline.run, hs] using ih s h

/-- While `ReceiveMessages` runs, the messages that enter the channel are some
of the messages read, in the order read, and every other message read has one
"queue full" line in the log. -/
theorem Pipeline.run_accounting (exchangeName : String) (steps : List PipelineStep) :
    ∀ s : Pipeline, s.reading = true →
      ∃ acc : List String,
        (Pipeline.run exchangeName steps s).handedOver ++
            (Pipeline.run exchangeName steps s).messageQueue =
          (s.handedOver ++ s.messageQueue) ++ acc ∧
        List.Sublist acc (readMessages steps) ∧
        acc.length + dropCount (Pipeline.run exchangeName steps s).log =
          dropCount s.log + (readMessages steps).length := by
  induction steps with
  | nil =>
    intro s _
    exact ⟨[], by simp [Pipeline.run], List.Sublist.refl _, by simp [Pipeline.run, readMessages]⟩
  | cons st rest ih =>
    intro s h
    cases st with
    | dequeue =>
      obtain ⟨h1, h2, h3, _⟩ := Pipeline.step_dequeue_accepted exchangeName s
      obtain ⟨acc, i1, i2, i3⟩ := ih (s.step exchangeName .dequeue) (h3.trans h)
      refine ⟨acc, ?_, ?_, ?_⟩
      · simpa [Pipeline.run, h1] using i1
      · simpa [readMessages] using i2
      · simpa [Pipeline.run, readMessages, h2] using i3
    | read result =>
      cases result with
      | error err =>
        have hstop := Pipeline.run_stopped exchangeName rest
          (s.step exchangeName (.read (.error err)))
          (by simp [Pipeline.step, h, ReceiveMessages.iteration])
        refine ⟨[], ?_, ?_, ?_⟩
        · simpa [Pipeline.run, Pipeline.step, h, ReceiveMessages.iteration] using hstop.1
        · simp [readMessages]
        · have := hstop.2
          simp only [Pipeline.step, h, if_true, ReceiveMessages.iteration, dropCount_append] at this
          simpa [Pipeline.run, Pipeline.step, h, ReceiveMessages.iteration, readMessages]
            using this
      | ok message =>
        by_cases hroom : s.messageQueue.length < messageQueueCapacity
        · have hstep : s.step exchangeName (.read (.ok message)) =
              { s with messageQueue := s.messageQueue ++ [message] } := by
            simp [Pipeline.step, h, ReceiveMessages.iteration, hroom]
          obtain ⟨acc, i1, i2, i3⟩ := ih _ (show (s.step exchangeName (.read (.ok message))).reading
            = true by rw [hstep]; exact h)
          rw [hstep] at i1 i3
          refine ⟨message :: acc, ?_, ?_, ?_⟩
          · simp only [Pipeline.run, hstep]
            simpa [List.append_assoc] using i1
          · simpa [readMessages] using i2
          · simp only [Pipeline.run, hstep, readMessages, List.length_cons]
            simp only at i3
            omega
        · have hstep : s.step exchangeName (.read (.ok message)) =
              { s with log := s.log ++ [.queueFull exchangeName] } := by
            simp [Pipeline.step, h, ReceiveMessages.iteration, hroom]
          obtain ⟨acc, i1, i2, i3⟩ := ih _ (show (s.step exchangeName (.read (.ok message))).reading
            = true by rw [hstep]; exact h)
          rw [hstep] at i1 i3
          refine ⟨acc, ?_, ?_, ?_⟩
          · simp only [Pipeline.run, hstep]
            simpa using i1
          · simpa [readMessages] using List.Sublist.cons message i2
          · simp only [Pipeline.run, hstep, readMessages, List.length_cons]
            simp only [dropCount_append] at i3
            omega

/-- C7: for every sequence of messages read by `ReceiveMessages` and every
interleaving of dequeues, starting from the empty queue: the message queue never
holds more than its capacity of 500; a message read while the queue has room is
enqueued (at the back, with no log line); a message read while the queue is full
leaves the queue as it is and adds exactly one "queue full" log line; the
messages that entered the queue are a subsequence of the messages read, in the
order read; and the messages read are those that entered the queue plus one per
"queue full" line, so a message that is not enqueued is logged once, not kept
and not retried. -/
theorem messageQueue_bounded_and_drops_logged (exchangeName : String)
    (steps : List PipelineStep) :
    (Pipeline.run exchangeName steps {}).messageQueue.length ≤ 500 ∧
      (∀ message, (Pipeline.run exchangeName steps {}).messageQueue.length < 500 →
        ReceiveMessages.iteration messageQueueCapacity exchangeName
            (Pipeline.run exchangeName steps {}) (.ok message) =
          { Pipeline.run exchangeName steps {} with
            messageQueue := (Pipeline.run exchangeName steps {}).messageQueue ++ [message] }) ∧
      (∀ message, ¬ (Pipeline.run exchangeName steps {}).messageQueue.length < 500 →
        ReceiveMessages.iteration messageQueueCapacity exchangeName
            (Pipeline.run exchangeName steps {}) (.ok message) =
          { Pipeline.run exchangeName steps {} with
            log := (Pipeline.run exchangeName steps {}).log ++ [.queueFull exchangeName] }) ∧
      List.Sublist
        ((Pipeline.run exchangeName steps {}).handedOver ++
          (Pipeline.run exchangeName steps {}).messageQueue)
        (readMessages steps) ∧
      ((Pipeline.run exchangeName steps {}).handedOver ++
            (Pipeline.run exchangeName steps {}).messageQueue).length +
          dropCount (Pipeline.run exchangeName steps {}).log =
        (readMessages steps).length := by
  obtain ⟨acc, h1, h2, h3⟩ := Pipeline.run_accounting exchangeName steps {} rfl
  refine ⟨?_, ?_, ?_, ?_, ?_⟩
  · exact Pipeline.run_bounded exchangeName steps {} (by simp)
  · intro message hroom
    have : (Pipeline.run exchangeName steps {}).messageQueue.length < messageQueueCapacity := hroom
    simp [ReceiveMessages.iteration, this]
  · intro message hfull
    have : ¬ (Pipeline.run exchangeName steps {}).messageQueue.length < messageQueueCapacity :=
      hfull
    simp [ReceiveMessages.iteration, this]
  · rw [h1]
    simpa using h2
  · rw [h1]
    have h0 : dropCount ({} : Pipeline).log = 0 := rfl
    simp only [h0] at h3
    simpa using h3

/-! ## The consumer loop: lemmas -/

theorem ingestCalls_append (a b : List ConsumerEvent) :
    ingestCalls (a ++ b) = ingestCalls a ++ ingestCalls b := by
  induction a with
  | nil => rfl
  | cons e rest ih => cases e <;> simp [ingestCalls, ih]

theorem classified_append (a b : List ConsumerEvent) :
    classified (a ++ b) = classified a ++ classified b := by
  induction a with
  | nil => rfl
  | cons e rest ih => cases e <;> simp [classified, ih]

theorem ingestCalls_logs (log : List LogEntry) :
    ingestCalls (log.map ConsumerEvent.log) = [] := by
  induction log with
  | nil => rfl
  | cons e rest ih => simpa [ingestCalls] using ih

theorem classified_logs (log : List LogEntry) :
    classified (log.map ConsumerEvent.log) = [] := by
  induction log with
  | nil => rfl
  | cons e rest ih => simpa [classified] using ih

theorem sameKeys_set {β : Type} (m : Registry β) (key : String) (old new : β)
    (h : m key = some old) : sameKeys (m.set key new) m := by
  intro k
  unfold Registry.set
  split
  · rename_i hk
    rw [hk, h]
    rfl
  · rfl

theorem sameKeys_trans {β : Type} {a b c : Registry β} (h1 : sameKeys a b) (h2 : sameKeys b c) :
    sameKeys a c :=
  fun k => (h1 k).trans (h2 k)

theorem sameKeys_refl {β : Type} (a : Registry β) : sameKeys a a :=
  fun _ => rfl

/-- What one pass through the body of the consumer loop does, case by case. -/
theorem ConsumeMessages.body_cases {κ β μ : Type} (ext : Externals κ β μ) (name : String)
    (buffers : Registry β) (message : String) :
    (∃ tr, ConsumeMessages.body ext name buffers message = .next buffers tr ∧
        classified tr = [message] ∧ ingestCalls tr = [] ∧
        (∀ code log, (ProcessMessage message [] []).err = none →
          ConsumeMessages.switch name (ProcessMessage message [] []) = .route code log →
          code = "" ∨ buffers code = none)) ∨
      (∃ tr, ConsumeMessages.body ext name buffers message = .exit buffers tr .indexOutOfRange ∧
        classified tr = [message] ∧ ingestCalls tr = [] ∧
        (ProcessMessage message [] []).err = none ∧
        ConsumeMessages.switch name (ProcessMessage message [] []) = .outOfRange) ∨
      (∃ code log buffer data tr,
        (ProcessMessage message [] []).err = none ∧
        ConsumeMessages.switch name (ProcessMessage message [] []) = .route code log ∧
        code ≠ "" ∧ buffers code = some buffer ∧
        classified tr = [message] ∧ ingestCalls tr = [(code, data)] ∧
        ((ext.AddData buffer data).2 = none ∧
            ConsumeMessages.body ext name buffers message =
              .next (buffers.set code (ext.AddData buffer data).1) tr ∨
          (∃ err, (ext.AddData buffer data).2 = some err ∧
            ConsumeMessages.body ext name buffers message =
              .exit (buffers.set code (ext.AddData buffer data).1) tr .addDataFailed))) := by
  cases herr : (ProcessMessage message [] []).err with
  | some err =>
    left
    exact ⟨[.processMessage message, .log (.processError err)],
      by simp [ConsumeMessages.body, herr], by simp [classified], by simp [ingestCalls],
      by simp⟩
  | none =>
    cases hsw : ConsumeMessages.switch name (ProcessMessage message [] []) with
    | skip =>
      left
      exact ⟨[.processMessage message, .log .unknownType],
        by simp [ConsumeMessages.body, herr, hsw], by simp [classified], by simp [ingestCalls],
        by simp⟩
    | outOfRange =>
      right; left
      exact ⟨[.processMessage message],
        by simp [ConsumeMessages.body, herr, hsw], by simp [classified], by simp [ingestCalls],
        rfl, rfl⟩
    | route code log =>
      by_cases hcode : code = ""
      · left
        refine ⟨.processMessage message :: log.map ConsumerEvent.log,
          by simp [ConsumeMessages.body, herr, hsw, hcode], ?_, ?_, ?_⟩
        · simp [classified, classified_logs]
        · simp [ingestCalls, ingestCalls_logs]
        · intro c l _ h
          simp only [Switch.route.injEq] at h
          exact Or.inl (h.1 ▸ hcode)
      · cases hb : buffers code with
        | none =>
          left
          refine ⟨(.processMessage message :: log.map ConsumerEvent.log) ++
              [.log (.noBuffer code)],
            by simp [ConsumeMessages.body, herr, hsw, hcode, hb], ?_, ?_, ?_⟩
          · simp [classified, classified_append, classified_logs]
          · simp [ingestCalls, ingestCalls_append, ingestCalls_logs]
          · intro c l _ h
            simp only [Switch.route.injEq] at h
            exact Or.inr (h.1 ▸ hb)
        | some buffer =>
          right; right
          cases ha : ext.AddData buffer (if (ProcessMessage message [] []).dataType = 1
              then Records.ticker (ProcessMessage message [] []).tickerData
              else Records.trade (ProcessMessage message [] []).tradeData) with
          | mk b1 e1 =>
            cases e1 with
            | none =>
              refine ⟨code, log, buffer, _,
                (.processMessage message :: log.map ConsumerEvent.log) ++
                  [.addData code (if (ProcessMessage message [] []).dataType = 1
                    then Records.ticker (ProcessMessage message [] []).tickerData
                    else Records.trade (ProcessMessage message [] []).tradeData)],
                rfl, rfl, hcode, hb, ?_, ?_, Or.inl ⟨by rw [ha], ?_⟩⟩
              · simp [classified, classified_append, classified_logs]
              · simp [ingestCalls, ingestCalls_append, ingestCalls_logs]
              · simp [ConsumeMessages.body, herr, hsw, hcode, hb, ha]
            | some err =>
              refine ⟨code, log, buffer, _,
                (.processMessage message :: log.map ConsumerEvent.log) ++
                  [.addData code (if (ProcessMessage message [] []).dataType = 1
                    then Records.ticker (ProcessMessage message [] []).tickerData
                    else Records.trade (ProcessMessage message [] []).tradeData),
                    .log (.addDataError err)],
                rfl, rfl, hcode, hb, ?_, ?_, Or.inr ⟨err, by rw [ha], ?_⟩⟩
              · simp [classified, classified_append, classified_logs]
              · simp [ingestCalls, ingestCalls_append, ingestCalls_logs]
              · simp [ConsumeMessages.body, herr, hsw, hcode, hb, ha]

/-- One pass through the body hands exactly its own message to `ProcessMessage`. -/
theorem ConsumeMessages.body_classified {κ β μ : Type} (ext : Externals κ β μ) (name : String)
    (buffers : Registry β) (message : String) :
    classified (ConsumeMessages.body ext name buffers message).trace = [message] := by
  rcases ConsumeMessages.body_cases ext name buffers message with
    ⟨tr, hb, hc, _⟩ | ⟨tr, hb, hc, _⟩ | ⟨_, _, _, _, tr, _, _, _, _, hc, _, hb⟩
  · rw [hb]; exact hc
  · rw [hb]; exact hc
  · rcases hb with ⟨_, hb⟩ | ⟨_, _, hb⟩ <;> (rw [hb]; exact hc)

/-- One pass through the body makes at most one `AddData` call. -/
theorem ConsumeMessages.body_ingestCalls {κ β μ : Type} (ext : Externals κ β μ) (name : String)
    (buffers : Registry β) (message : String) :
    ingestCalls (ConsumeMessages.body ext name buffers message).trace =
        (ConsumeMessages.ingestOf ext name buffers message).toList ∧
      (ingestCalls (ConsumeMessages.body ext name buffers message).trace).length ≤ 1 := by
  unfold ConsumeMessages.ingestOf
  rcases ConsumeMessages.body_cases ext name buffers message with
    ⟨tr, hb, _, hi, _⟩ | ⟨tr, hb, _, hi, _⟩ | ⟨_, _, _, _, tr, _, _, _, _, _, hi, hb⟩
  · rw [hb]; simp [Flow.trace, hi]
  · rw [hb]; simp [Flow.trace, hi]
  · rcases hb with ⟨_, hb⟩ | ⟨_, _, hb⟩ <;> (rw [hb]; simp [Flow.trace, hi])

/-- One pass through the body keeps the keys of the registry. -/
theorem ConsumeMessages.body_sameKeys {κ β μ : Type} (ext : Externals κ β μ) (name : String)
    (buffers : Registry β) (message : String) :
    sameKeys (ConsumeMessages.body ext name buffers message).buffers buffers := by
  rcases ConsumeMessages.body_cases ext name buffers message with
    ⟨tr, hb, _⟩ | ⟨tr, hb, _⟩ | ⟨_, _, buffer, _, tr, _, _, _, hl, _, _, hb⟩
  · rw [hb]; exact sameKeys_refl _
  · rw [hb]; exact sameKeys_refl _
  · rcases hb with ⟨_, hb⟩ | ⟨_, _, hb⟩ <;>
      (rw [hb]; exact sameKeys_set _ _ buffer _ hl)

/-- The `AddData` call made for a message depends on the keys of the registry
only, not on the state of its buffers. -/
theorem ConsumeMessages.body_ingest_congr {κ β μ : Type} (ext : Externals κ β μ) (name : String)
    (b1 b2 : Registry β) (message : String) (h : sameKeys b1 b2) :
    ingestCalls (ConsumeMessages.body ext name b1 message).trace =
      ingestCalls (ConsumeMessages.body ext name b2 message).trace := by
  cases herr : (ProcessMessage message [] []).err with
  | some err => simp [ConsumeMessages.body, herr, Flow.trace]
  | none =>
    cases hsw : ConsumeMessages.switch name (ProcessMessage message [] []) with
    | skip => simp [ConsumeMessages.body, herr, hsw, Flow.trace]
    | outOfRange => simp [ConsumeMessages.body, herr, hsw, Flow.trace]
    | route code log =>
      by_cases hcode : code = ""
      · simp [ConsumeMessages.body, herr, hsw, hcode, Flow.trace]
      · have hk := h code
        cases hb1 : b1 code with
        | none =>
          cases hb2 : b2 code with
          | none =>
            simp [ConsumeMessages.body, herr, hsw, hcode, hb1, hb2, Flow.trace]
          | some x => simp [hb1, hb2] at hk
        | some x =>
          cases hb2 : b2 code with
          | none => simp [hb1, hb2] at hk
          | some y =>
            cases ha1 : ext.AddData x (if (ProcessMessage message [] []).dataType = 1
                then Records.ticker (ProcessMessage message [] []).tickerData
                else Records.trade (ProcessMessage message [] []).tradeData) with
            | mk x1 e1 =>
              cases ha2 : ext.AddData y (if (ProcessMessage message [] []).dataType = 1
                  then Records.ticker (ProcessMessage message [] []).tickerData
                  else Records.trade (ProcessMessage message [] []).tradeData) with
              | mk y1 e2 =>
                cases e1 <;> cases e2 <;>
                  simp [ConsumeMessages.body, herr, hsw, hcode, hb1, hb2, ha1, ha2, Flow.trace,
                    ingestCalls, ingestCalls_append, ingestCalls_logs]

theorem ConsumeMessages.ingestOf_congr {κ β μ : Type} (ext : Externals κ β μ) (name : String)
    (b1 b2 : Registry β) (message : String) (h : sameKeys b1 b2) :
    ConsumeMessages.ingestOf ext name b1 message = ConsumeMessages.ingestOf ext name b2 message := by
  unfold ConsumeMessages.ingestOf
  rw [ConsumeMessages.body_ingest_congr ext name b1 b2 message h]

/-- The consumer loop unfolded once, in terms of `Flow.trace` and `Flow.buffers`. -/
theorem ConsumeMessages_cons {κ β μ : Type} (ext : Externals κ β μ) (exchange : ExchangeConfig μ)
    (buffers : Registry β) (message : String) (rest : List String) :
    ((∃ b1 tr, ConsumeMessages.body ext (normalizedExchangeName exchange.Name) buffers message =
          .next b1 tr) ∧
        ConsumeMessages ext exchange buffers (message :: rest) =
          ⟨(ConsumeMessages ext exchange
              (ConsumeMessages.body ext (normalizedExchangeName exchange.Name) buffers
                message).buffers rest).buffers,
            (ConsumeMessages.body ext (normalizedExchangeName exchange.Name) buffers
                message).trace ++
              (ConsumeMessages ext exchange
                (ConsumeMessages.body ext (normalizedExchangeName exchange.Name) buffers
                  message).buffers rest).trace,
            (ConsumeMessages ext exchange
              (ConsumeMessages.body ext (normalizedExchangeName exchange.Name) buffers
                message).buffers rest).exit⟩) ∨
      (∃ b1 tr why,
        ConsumeMessages.body ext (normalizedExchangeName exchange.Name) buffers message =
          .exit b1 tr why ∧
        ConsumeMessages ext exchange buffers (message :: rest) = ⟨b1, tr, why⟩) := by
  cases hb : ConsumeMessages.body ext (normalizedExchangeName exchange.Name) buffers message with
  | next b1 tr =>
    left
    exact ⟨⟨b1, tr, rfl⟩, by simp [ConsumeMessages, hb, Flow.trace, Flow.buffers]⟩
  | exit b1 tr why =>
    right
    exact ⟨b1, tr, why, rfl, by simp [ConsumeMessages, hb]⟩

/-! ## C8: FIFO order -/

/-- The consumer loop works through a front part of the queue in order; the
calls it makes are those of the messages of that part, in order. -/
theorem ConsumeMessages_order {κ β μ : Type} (ext : Externals κ β μ)
    (exchange : ExchangeConfig μ) (b0 : Registry β) (messages : List String) :
    ∀ b : Registry β, sameKeys b b0 →
      ∃ n, n ≤ messages.length ∧
        classified (ConsumeMessages ext exchange b messages).trace = messages.take n ∧
        ingestCalls (ConsumeMessages ext exchange b messages).trace =
          (messages.take n).filterMap
            (ConsumeMessages.ingestOf ext (normalizedExchangeName exchange.Name) b0) ∧
        ((ConsumeMessages ext exchange b messages).exit = .queueClosed → n = messages.length) := by
  induction messages with
  | nil =>
    intro b _
    exact ⟨0, le_refl _, by simp [ConsumeMessages, classified],
      by simp [ConsumeMessages, ingestCalls], fun _ => rfl⟩
  | cons m rest ih =>
    intro b hb
    have hc := ConsumeMessages.body_classified ext (normalizedExchangeName exchange.Name) b m
    have hi := (ConsumeMessages.body_ingestCalls ext (normalizedExchangeName exchange.Name) b m).1
    rw [ConsumeMessages.ingestOf_congr ext _ b b0 m hb] at hi
    have hfm : ∀ l : List String,
        (m :: l).filterMap
            (ConsumeMessages.ingestOf ext (normalizedExchangeName exchange.Name) b0) =
          (ConsumeMessages.ingestOf ext (normalizedExchangeName exchange.Name) b0 m).toList ++
            l.filterMap
              (ConsumeMessages.ingestOf ext (normalizedExchangeName exchange.Name) b0) := by
      intro l
      cases h : ConsumeMessages.ingestOf ext (normalizedExchangeName exchange.Name) b0 m <;>
        simp [List.filterMap_cons, h]
    rcases ConsumeMessages_cons ext exchange b m rest with ⟨_, hrun⟩ | ⟨b1, tr, why, hbody, hrun⟩
    · obtain ⟨n, hn, h1, h2, h3⟩ := ih _
        (sameKeys_trans
          (ConsumeMessages.body_sameKeys ext (normalizedExchangeName exchange.Name) b m) hb)
      refine ⟨n + 1, by simp only [List.length_cons]; omega, ?_, ?_, ?_⟩
      · rw [hrun]
        simp only [classified_append, hc, h1, List.take_succ_cons, List.singleton_append]
      · rw [hrun]
        simp only [ingestCalls_append, hi, h2, List.take_succ_cons, hfm]
      · rw [hrun]
        intro hq
        simp only [List.length_cons, h3 hq]
    · rw [hbody] at hc hi
      refine ⟨1, by simp, ?_, ?_, ?_⟩
      · rw [hrun]
        simpa [Flow.trace] using hc
      · rw [hrun]
        simp only [List.take_succ_cons, List.take_zero, hfm, List.filterMap_nil, List.append_nil]
        simpa [Flow.trace] using hi
      · rw [hrun]
        intro hq
        simp only at hq
        rcases ConsumeMessages.body_cases ext (normalizedExchangeName exchange.Name) b m with
          ⟨tr2, h2, _⟩ | ⟨tr2, h2, _⟩ | ⟨_, _, _, _, tr2, _, _, _, _, _, _, h2⟩
        · rw [h2] at hbody; simp at hbody
        · rw [h2] at hbody
          simp only [Flow.exit.injEq] at hbody
          rw [← hbody.2.2] at hq
          simp at hq
        · rcases h2 with ⟨_, h2⟩ | ⟨_, _, h2⟩
          · rw [h2] at hbody; simp at hbody
          · rw [h2] at hbody
            simp only [Flow.exit.injEq] at hbody
            rw [← hbody.2.2] at hq
            simp at hq

/-- C8: `ConsumeMessages` processes messages in FIFO order.  For every content
of the queue, the messages it hands to `ProcessMessage` are a front part of the
queue, in queue order (all of the queue when the loop ends because the channel
was closed), and the `AddData` calls it makes are, in the same order, the calls
of the messages of that part, each message yielding at most one call: a record
of an earlier message is never ingested after a record of a later one. -/
theorem ConsumeMessages_fifo {κ β μ : Type} (ext : Externals κ β μ)
    (exchange : ExchangeConfig μ) (buffers : Registry β) (messages : List String) :
    ∃ n, n ≤ messages.length ∧
      classified (ConsumeMessages ext exchange buffers messages).trace = messages.take n ∧
      ingestCalls (ConsumeMessages ext exchange buffers messages).trace =
        (messages.take n).filterMap
          (ConsumeMessages.ingestOf ext (normalizedExchangeName exchange.Name) buffers) ∧
      ((ConsumeMessages ext exchange buffers messages).exit = .queueClosed →
        n = messages.length) :=
  ConsumeMessages_order ext exchange buffers messages buffers (sameKeys_refl _)

/-! ## C9: an ingest failure ends the loop -/

/-- Once the loop has returned, what is queued behind changes nothing. -/
theorem ConsumeMessages_after_return {κ β μ : Type} (ext : Externals κ β μ)
    (exchange : ExchangeConfig μ) (queue later : List String) :
    ∀ b : Registry β, (ConsumeMessages ext exchange b queue).exit ≠ .queueClosed →
      ConsumeMessages ext exchange b (queue ++ later) = ConsumeMessages ext exchange b queue := by
  induction queue with
  | nil =>
    intro b h
    simp [ConsumeMessages] at h
  | cons m rest ih =>
    intro b h
    rcases ConsumeMessages_cons ext exchange b m rest with ⟨hnext, hrun⟩ | ⟨b1, tr, why, hbody, hrun⟩
    · rcases ConsumeMessages_cons ext exchange b m (rest ++ later) with
        ⟨_, hrun2⟩ | ⟨b1, tr, why, hbody, _⟩
      · rw [hrun] at h
        simp only at h
        rw [List.cons_append, hrun2, hrun, ih _ h]
      · obtain ⟨b2, tr2, hn⟩ := hnext
        rw [hn] at hbody
        simp at hbody
    · rcases ConsumeMessages_cons ext exchange b m (rest ++ later) with
        ⟨⟨b2, tr2, hn⟩, _⟩ | ⟨b2, tr2, why2, hbody2, hrun2⟩
      · rw [hn] at hbody
        simp at hbody
      · rw [List.cons_append, hrun2, hrun]
        rw [hbody] at hbody2
        simp only [Flow.exit.injEq] at hbody2
        simp [hbody2]

/-- While the loop has not returned, it goes on with the rest of the queue from
the registry it has reached. -/
theorem ConsumeMessages_append_closed {κ β μ : Type} (ext : Externals κ β μ)
    (exchange : ExchangeConfig μ) (before rest : List String) :
    ∀ b : Registry β, (ConsumeMessages ext exchange b before).exit = .queueClosed →
      ConsumeMessages ext exchange b (before ++ rest) =
        ⟨(ConsumeMessages ext exchange (ConsumeMessages ext exchange b before).buffers
            rest).buffers,
          (ConsumeMessages ext exchange b before).trace ++
            (ConsumeMessages ext exchange (ConsumeMessages ext exchange b before).buffers
              rest).trace,
          (ConsumeMessages ext exchange (ConsumeMessages ext exchange b before).buffers
            rest).exit⟩ := by
  induction before with
  | nil =>
    intro b _
    simp [ConsumeMessages]
  | cons m more ih =>
    intro b h
    rcases ConsumeMessages_cons ext exchange b m more with
      ⟨⟨b1, tr, hn⟩, hrun⟩ | ⟨b1, tr, why, hbody, hrun⟩
    · rcases ConsumeMessages_cons ext exchange b m (more ++ rest) with
        ⟨_, hrun2⟩ | ⟨b2, tr2, why2, hbody2, _⟩
      · rw [hrun] at h
        simp only at h
        rw [List.cons_append, hrun2, hrun, ih _ h]
        simp
      · rw [hn] at hbody2
        simp at hbody2
    · rw [hrun] at h
      simp only at h
      subst h
      rcases ConsumeMessages.body_cases ext (normalizedExchangeName exchange.Name) b m with
        ⟨tr3, h3, _⟩ | ⟨tr3, h3, _⟩ | ⟨_, _, _, _, tr3, _, _, _, _, _, _, h3⟩
      · rw [h3] at hbody; simp at hbody
      · rw [h3] at hbody; simp at hbody
      · rcases h3 with ⟨_, h3⟩ | ⟨_, _, h3⟩ <;> (rw [h3] at hbody; simp at hbody)

/-- The pass through the loop body in which `AddData` reports an error: the call
is made, the error is logged and the function returns. -/
theorem ConsumeMessages.body_ingest_failure {κ β μ : Type} (ext : Externals κ β μ)
    (name : String) (b : Registry β) (message code : String) (log : List LogEntry)
    (buffer : β) (err : GoError)
    (herr : (ProcessMessage message [] []).err = none)
    (hsw : ConsumeMessages.switch name (ProcessMessage message [] []) = .route code log)
    (hcode : code ≠ "") (hb : b code = some buffer)
    (hfail : (ext.AddData buffer
      (ConsumeMessages.ingested (ProcessMessage message [] []))).2 = some err) :
    ConsumeMessages.body ext name b message =
      .exit
        (b.set code
          (ext.AddData buffer (ConsumeMessages.ingested (ProcessMessage message [] []))).1)
        (.processMessage message :: log.map ConsumerEvent.log ++
          [.addData code (ConsumeMessages.ingested (ProcessMessage message [] [])),
            .log (.addDataError err)])
        .addDataFailed := by
  unfold ConsumeMessages.ingested at hfail ⊢
  cases ha : ext.AddData buffer (if (ProcessMessage message [] []).dataType = 1
      then Records.ticker (ProcessMessage message [] []).tickerData
      else Records.trade (ProcessMessage message [] []).tradeData) with
  | mk b1 e1 =>
    rw [ha] at hfail
    simp only at hfail
    subst hfail
    simp [ConsumeMessages.body, herr, hsw, hcode, hb, ha]

/-- C9: if a buffer's `AddData` reports failure while `ConsumeMessages` handles a
message, the loop ends at that message.  Let the loop have handled the messages
in front of a message without returning, let `ProcessMessage` classify the
message without error, let its routing key be `code`, not empty, with a buffer
registered under it, and let `AddData` of that buffer, handed the ticker slice
(discriminant 1) or the trade slice (otherwise), return an error.  Then for
everything enqueued later the outcome is the same: the trace is the one of the
messages in front, then the call of `ProcessMessage`, the log lines of the
switch, the failed `AddData` call and its log line, and nothing after it; the
loop has returned because of the failure; the messages handed to
`ProcessMessage` are those in front and the message itself, and the `AddData`
calls are those of the messages in front and the failed one, so no message
enqueued after it is classified or ingested into any buffer. -/
theorem ConsumeMessages_stops_on_ingest_failure {κ β μ : Type} (ext : Externals κ β μ)
    (exchange : ExchangeConfig μ) (buffers : Registry β) (before later : List String)
    (message code : String) (log : List LogEntry) (buffer : β) (err : GoError)
    (hrun : (ConsumeMessages ext exchange buffers before).exit = .queueClosed)
    (herr : (ProcessMessage message [] []).err = none)
    (hsw : ConsumeMessages.switch (normalizedExchangeName exchange.Name)
      (ProcessMessage message [] []) = .route code log)
    (hcode : code ≠ "")
    (hb : (ConsumeMessages ext exchange buffers before).buffers code = some buffer)
    (hfail : (ext.AddData buffer
      (ConsumeMessages.ingested (ProcessMessage message [] []))).2 = some err) :
    ConsumeMessages ext exchange buffers (before ++ message :: later) =
        ⟨(ConsumeMessages ext exchange buffers before).buffers.set code
            (ext.AddData buffer (ConsumeMessages.ingested (ProcessMessage message [] []))).1,
          (ConsumeMessages ext exchange buffers before).trace ++
            (.processMessage message :: log.map ConsumerEvent.log ++
              [.addData code (ConsumeMessages.ingested (ProcessMessage message [] [])),
                .log (.addDataError err)]),
          .addDataFailed⟩ ∧
      classified (ConsumeMessages ext exchange buffers (before ++ message :: later)).trace =
        before ++ [message] ∧
      ingestCalls (ConsumeMessages ext exchange buffers (before ++ message :: later)).trace =
        ingestCalls (ConsumeMessages ext exchange buffers before).trace ++
          [(code, ConsumeMessages.ingested (ProcessMessage message [] []))] := by
  have hbody := ConsumeMessages.body_ingest_failure ext (normalizedExchangeName exchange.Name)
    (ConsumeMessages ext exchange buffers before).buffers message code log buffer err
    herr hsw hcode hb hfail
  have hall : ConsumeMessages ext exchange buffers (before ++ message :: later) =
      ⟨(ConsumeMessages ext exchange buffers before).buffers.set code
          (ext.AddData buffer (ConsumeMessages.ingested (ProcessMessage message [] []))).1,
        (ConsumeMessages ext exchange buffers before).trace ++
          (.processMessage message :: log.map ConsumerEvent.log ++
            [.addData code (ConsumeMessages.ingested (ProcessMessage message [] [])),
              .log (.addDataError err)]),
        .addDataFailed⟩ := by
    rw [ConsumeMessages_append_closed ext exchange before (message :: later) buffers hrun]
    simp [ConsumeMessages, hbody]
  obtain ⟨n, _, h1, _, h3⟩ :=
    ConsumeMessages_order ext exchange buffers before buffers (sameKeys_refl _)
  have hcl : classified (ConsumeMessages ext exchange buffers before).trace = before := by
    rw [h1, h3 hrun, List.take_length]
  refine ⟨hall, ?_, ?_⟩
  · rw [hall]
    simp [classified_append, hcl, classified, classified_logs]
  · rw [hall]
    simp [ingestCalls_append, ingestCalls, ingestCalls_logs]

set_option maxRecDepth 100000 in
/-- C9, witness: a buffer that refuses every record, first on the ticker branch,
behind a message without an event type and in front of a trade, then on the
trade branch, in front of a ticker. -/
theorem ConsumeMessages_stops_on_ingest_failure_witness :
    classified (ConsumeMessages failingExternals bothExchange bothRegistry
        ([specUnknown] ++ specTicker :: [specBareTrade])).trace = [specUnknown] ++ [specTicker] ∧
      classified (ConsumeMessages failingExternals bothExchange bothRegistry
        ([] ++ specBareTrade :: [specTicker])).trace = [] ++ [specBareTrade] :=
  ⟨(ConsumeMessages_stops_on_ingest_failure failingExternals bothExchange bothRegistry
      [specUnknown] [specBareTrade] specTicker "BTCUSDT:ticker@Binance" [] ()
      (.external "disk full") (by decide) (by decide) (by decide) (by decide) (by decide)
      rfl).2.1,
    (ConsumeMessages_stops_on_ingest_failure failingExternals bothExchange bothRegistry
      [] [specTicker] specBareTrade "BTCUSDT:trade@Binance" [] ()
      (.external "disk full") (by decide) (by decide) (by decide) (by decide) (by decide)
      rfl).2.1⟩

/-! ## C10: classification errors and routing misses -/

/-- C10: classification errors and routing misses are recoverable in
`ConsumeMessages`.  A message for which `ProcessMessage` returns an error or
discriminant 0 (malformed or unknown type), or whose routing key has no buffer
in the registry, causes no `AddData` call, and for every queue content around
it the `AddData` calls, the final registry and the reason of the exit are
exactly those of the queue without that message. -/
theorem ConsumeMessages_skips_unroutable {κ β μ : Type} (ext : Externals κ β μ)
    (exchange : ExchangeConfig μ) (buffers : Registry β) (before after : List String)
    (message : String)
    (h : (ProcessMessage message [] []).err ≠ none ∨
      (ProcessMessage message [] []).dataType = 0 ∨
      ∃ code log,
        ConsumeMessages.switch (normalizedExchangeName exchange.Name)
          (ProcessMessage message [] []) = .route code log ∧
        buffers code = none) :
    ingestCalls (ConsumeMessages.body ext (normalizedExchangeName exchange.Name) buffers
        message).trace = [] ∧
      ingestCalls (ConsumeMessages ext exchange buffers (before ++ message :: after)).trace =
        ingestCalls (ConsumeMessages ext exchange buffers (before ++ after)).trace ∧
      (ConsumeMessages ext exchange buffers (before ++ message :: after)).buffers =
        (ConsumeMessages ext exchange buffers (before ++ after)).buffers ∧
      (ConsumeMessages ext exchange buffers (before ++ message :: after)).exit =
        (ConsumeMessages ext exchange buffers (before ++ after)).exit := by
  have hskip : ∀ b : Registry β, sameKeys b buffers →
      ∃ tr, ConsumeMessages.body ext (normalizedExchangeName exchange.Name) b message =
        .next b tr ∧ ingestCalls tr = [] := by
    intro b hb
    rcases ConsumeMessages.body_cases ext (normalizedExchangeName exchange.Name) b message with
      ⟨tr, h1, _, h2, _⟩ | ⟨tr, _, _, _, herr, hsw⟩ |
      ⟨code, log, buffer, _, _, herr, hsw, _, hl, _⟩
    · exact ⟨tr, h1, h2⟩
    · rcases h with h | h | ⟨c, l, h, _⟩
      · exact absurd herr h
      · simp [ConsumeMessages.switch, h] at hsw
      · rw [hsw] at h; simp at h
    · rcases h with h | h | ⟨c, l, h, hnone⟩
      · exact absurd herr h
      · simp [ConsumeMessages.switch, h] at hsw
      · rw [hsw] at h
        simp only [Switch.route.injEq] at h
        have hk := hb code
        rw [hl, h.1, hnone] at hk
        simp at hk
  have hmain : ∀ (before : List String) (b : Registry β), sameKeys b buffers →
      ingestCalls (ConsumeMessages ext exchange b (before ++ message :: after)).trace =
          ingestCalls (ConsumeMessages ext exchange b (before ++ after)).trace ∧
        (ConsumeMessages ext exchange b (before ++ message :: after)).buffers =
          (ConsumeMessages ext exchange b (before ++ after)).buffers ∧
        (ConsumeMessages ext exchange b (before ++ message :: after)).exit =
          (ConsumeMessages ext exchange b (before ++ after)).exit := by
    intro before
    induction before with
    | nil =>
      intro b hb
      obtain ⟨tr, hbody, hi⟩ := hskip b hb
      simp [ConsumeMessages, hbody, ingestCalls_append, hi]
    | cons m rest ih =>
      intro b hb
      have hb1 := sameKeys_trans
        (ConsumeMessages.body_sameKeys ext (normalizedExchangeName exchange.Name) b m) hb
      obtain ⟨i1, i2, i3⟩ := ih _ hb1
      rcases ConsumeMessages_cons ext exchange b m (rest ++ message :: after) with
        ⟨⟨b2, tr2, hn⟩, hrun⟩ | ⟨b2, tr2, why2, hbody, hrun⟩
      · rcases ConsumeMessages_cons ext exchange b m (rest ++ after) with
          ⟨_, hrun2⟩ | ⟨b3, tr3, why3, hbody3, _⟩
        · simp only [List.cons_append, hrun, hrun2, ingestCalls_append, i1, i2, i3, and_self]
        · rw [hn] at hbody3
          simp at hbody3
      · rcases ConsumeMessages_cons ext exchange b m (rest ++ after) with
          ⟨⟨b3, tr3, hn⟩, _⟩ | ⟨b3, tr3, why3, hbody3, hrun2⟩
        · rw [hn] at hbody
          simp at hbody
        · rw [hbody] at hbody3
          simp only [Flow.exit.injEq] at hbody3
          simp [List.cons_append, hrun, hrun2, hbody3]
  obtain ⟨tr, hbody, hi⟩ := hskip buffers (sameKeys_refl _)
  exact ⟨by rw [hbody]; exact hi, hmain before buffers (sameKeys_refl _)⟩

set_option maxRecDepth 100000 in
/-- C10, witness: the payload without an event type between the ticker and the
trade of the spec. -/
theorem ConsumeMessages_skips_unroutable_witness :
    ingestCalls (ConsumeMessages idleExternals specExchange specRegistry
        ([specTicker] ++ specUnknown :: [specBareTrade])).trace =
      ingestCalls (ConsumeMessages idleExternals specExchange specRegistry
        ([specTicker] ++ [specBareTrade])).trace :=
  (ConsumeMessages_skips_unroutable idleExternals specExchange specRegistry
    [specTicker] [specBareTrade] specUnknown (Or.inl (by decide))).2.1

/-! ## C11: initialization is all or nothing -/

/-- A loop of `InitializeStreams` that returned no error wrote nothing to the log. -/
theorem InitializeStreams_loop_sent {κ β μ : Type} (ext : Externals κ β μ)
    (exchangeName : String) (streams : List (StreamConfig μ)) :
    ∀ (conn : κ) (m : Registry β),
      (InitializeStreams.loop ext exchangeName streams conn m).err = none →
      (InitializeStreams.loop ext exchangeName streams conn m).sent.map Except.ok =
          streams.map (fun stream => ext.Marshal stream.Message) ∧
        (InitializeStreams.loop ext exchangeName streams conn m).log = [] := by
  induction streams with
  | nil =>
    intro conn m _
    simp [InitializeStreams.loop]
  | cons first rest ih =>
    intro conn m herr
    simp only [InitializeStreams.loop] at herr ⊢
    cases hm : ext.Marshal first.Message with
    | error e => simp [hm] at herr
    | ok bMessage =>
      simp only [hm] at herr ⊢
      cases hw : ext.WriteMessage conn bMessage with
      | mk conn1 e1 =>
        cases e1 with
        | some e => simp [hw] at herr
        | none =>
          simp only [hw] at herr ⊢
          obtain ⟨h1, h2⟩ := ih _ _ herr
          exact ⟨by simp [h1, hm], h2⟩

/-- The loop over the streams in front of a stream, when it returns no error,
hands its connection and registry to the loop over the rest. -/
theorem InitializeStreams_loop_append {κ β μ : Type} (ext : Externals κ β μ)
    (exchangeName : String) (pre rest : List (StreamConfig μ)) :
    ∀ (conn : κ) (m : Registry β),
      (InitializeStreams.loop ext exchangeName pre conn m).err = none →
      InitializeStreams.loop ext exchangeName (pre ++ rest) conn m =
        { InitializeStreams.loop ext exchangeName rest
            (InitializeStreams.loop ext exchangeName pre conn m).conn
            (InitializeStreams.loop ext exchangeName pre conn m).dataBuffers with
          sent := (InitializeStreams.loop ext exchangeName pre conn m).sent ++
            (InitializeStreams.loop ext exchangeName rest
              (InitializeStreams.loop ext exchangeName pre conn m).conn
              (InitializeStreams.loop ext exchangeName pre conn m).dataBuffers).sent } := by
  induction pre with
  | nil =>
    intro conn m _
    simp [InitializeStreams.loop]
  | cons first more ih =>
    intro conn m herr
    simp only [InitializeStreams.loop, List.cons_append] at herr ⊢
    cases hm : ext.Marshal first.Message with
    | error e => simp [hm] at herr
    | ok bMessage =>
      simp only [hm] at herr ⊢
      cases hw : ext.WriteMessage conn bMessage with
      | mk conn1 e1 =>
        cases e1 with
        | some e => simp [hw] at herr
        | none =>
          simp only [hw, List.append_eq] at herr ⊢
          rw [ih _ _ herr]
          simp

/-- A loop of `InitializeStreams` that returned no error leaves the connection
as the writes of the messages it sent, in order, have made it. -/
theorem InitializeStreams_loop_conn {κ β μ : Type} (ext : Externals κ β μ)
    (exchangeName : String) (streams : List (StreamConfig μ)) :
    ∀ (conn : κ) (m : Registry β),
      (InitializeStreams.loop ext exchangeName streams conn m).err = none →
      (InitializeStreams.loop ext exchangeName streams conn m).conn =
        writeAll ext conn (InitializeStreams.loop ext exchangeName streams conn m).sent := by
  induction streams with
  | nil =>
    intro conn m _
    simp [InitializeStreams.loop, writeAll]
  | cons first rest ih =>
    intro conn m herr
    simp only [InitializeStreams.loop] at herr ⊢
    cases hm : ext.Marshal first.Message with
    | error e => simp [hm] at herr
    | ok bMessage =>
      simp only [hm] at herr ⊢
      cases hw : ext.WriteMessage conn bMessage with
      | mk conn1 e1 =>
        cases e1 with
        | some e => simp [hw] at herr
        | none =>
          simp only [hw] at herr ⊢
          simp only [writeAll, hw]
          exact ih _ _ herr

/-- C11: a serialization or send failure for a stream aborts initialization.
When the streams in front of a stream are subscribed without error and that
stream's subscribe message cannot be serialized or cannot be written,
`InitializeStreams` returns that error; the subscribe requests sent are exactly
those of the streams in front, one per stream in configuration order; the
connection is left as the writes of those requests have made it, followed by
nothing else when the serialization failed and by the one failed write when the
write failed, so nothing of a later stream is written to it; and
`HandleConnection` starts no goroutine, neither `ConsumeMessages` nor
`ReceiveMessages`.  Whenever `InitializeStreams` returns an error
`HandleConnection` starts nothing, so the goroutines only run on a fully
subscribed connection.  Conversely, when `InitializeStreams` returns no error,
the requests sent are the serialized subscribe messages of all configured
streams, one per stream in configuration order, the connection is left as the
writes of exactly these requests, in this order, have made it, the registry
holds a buffer under the routing key of every stream, and `HandleConnection`
starts `ConsumeMessages` with that registry and then `ReceiveMessages`. -/
theorem InitializeStreams_all_or_nothing {κ β μ : Type} (ext : Externals κ β μ) (conn : κ)
    (exchange : ExchangeConfig μ) :
    (∀ (pre post : List (StreamConfig μ)) (stream : StreamConfig μ) (e : GoError),
        exchange.Streams = pre ++ stream :: post →
        (InitializeStreams ext conn ⟨exchange.Name, pre⟩).err = none →
        (ext.Marshal stream.Message = .error e ∨
          ∃ bMessage, ext.Marshal stream.Message = .ok bMessage ∧
            (ext.WriteMessage (InitializeStreams ext conn ⟨exchange.Name, pre⟩).conn
              bMessage).2 = some e) →
        (InitializeStreams ext conn exchange).err = some e ∧
          (InitializeStreams ext conn exchange).sent.map Except.ok =
            pre.map (fun s => ext.Marshal s.Message) ∧
          (InitializeStreams ext conn exchange).sent.length = pre.length ∧
          (ext.Marshal stream.Message = .error e →
            (InitializeStreams ext conn exchange).conn =
              writeAll ext conn (InitializeStreams ext conn exchange).sent) ∧
          (∀ bMessage, ext.Marshal stream.Message = .ok bMessage →
            (InitializeStreams ext conn exchange).conn =
              (ext.WriteMessage
                (writeAll ext conn (InitializeStreams ext conn exchange).sent) bMessage).1) ∧
          (HandleConnection ext (some conn) exchange).started = []) ∧
      ((InitializeStreams ext conn exchange).err ≠ none →
        (HandleConnection ext (some conn) exchange).started = []) ∧
      ((InitializeStreams ext conn exchange).err = none →
        (InitializeStreams ext conn exchange).sent.map Except.ok =
            exchange.Streams.map (fun s => ext.Marshal s.Message) ∧
          (InitializeStreams ext conn exchange).sent.length = exchange.Streams.length ∧
          (InitializeStreams ext conn exchange).conn =
            writeAll ext conn (InitializeStreams ext conn exchange).sent ∧
          (∀ stream ∈ exchange.Streams,
            ((InitializeStreams ext conn exchange).dataBuffers
              (InitializeStreams.bufferCode exchange.Name stream.Symbol
                stream.Type_)).isSome = true) ∧
          (HandleConnection ext (some conn) exchange).started =
            [.consumeMessages (InitializeStreams ext conn exchange).dataBuffers,
              .receiveMessages]) := by
  have hstart : ∀ e, (InitializeStreams ext conn exchange).err = some e →
      (HandleConnection ext (some conn) exchange).started = [] := by
    intro e he
    simp [HandleConnection, he]
  refine ⟨?_, ?_, ?_⟩
  · intro pre post stream e hsplit hpre hfail
    have hsent := (InitializeStreams_loop_sent ext exchange.Name pre conn Registry.empty hpre).1
    have hconn := InitializeStreams_loop_conn ext exchange.Name pre conn Registry.empty hpre
    have happ := InitializeStreams_loop_append ext exchange.Name pre (stream :: post) conn
      Registry.empty hpre
    have hrun : (InitializeStreams ext conn exchange).err = some e ∧
        (InitializeStreams ext conn exchange).sent =
          (InitializeStreams ext conn ⟨exchange.Name, pre⟩).sent ∧
        (ext.Marshal stream.Message = .error e →
          (InitializeStreams ext conn exchange).conn =
            (InitializeStreams ext conn ⟨exchange.Name, pre⟩).conn) ∧
        (∀ bMessage, ext.Marshal stream.Message = .ok bMessage →
          (InitializeStreams ext conn exchange).conn =
            (ext.WriteMessage (InitializeStreams ext conn ⟨exchange.Name, pre⟩).conn
              bMessage).1) := by
      unfold InitializeStreams at hfail ⊢
      simp only at hfail ⊢
      rw [hsplit, happ]
      rcases hfail with hm | ⟨bMessage, hm, hw⟩
      · simp [InitializeStreams.loop, hm]
      · cases hw2 : ext.WriteMessage
            (InitializeStreams.loop ext exchange.Name pre conn Registry.empty).conn bMessage with
        | mk conn1 e1 =>
          rw [hw2] at hw
          simp only at hw
          subst hw
          simp [InitializeStreams.loop, hm, hw2]
    have hconn2 : (InitializeStreams ext conn ⟨exchange.Name, pre⟩).conn =
        writeAll ext conn (InitializeStreams ext conn exchange).sent := by
      rw [hrun.2.1]
      exact hconn
    refine ⟨hrun.1, ?_, ?_, ?_, ?_, hstart e hrun.1⟩
    · rw [hrun.2.1]
      exact hsent
    · rw [hrun.2.1]
      have := congrArg List.length hsent
      simpa using this
    · intro hm
      rw [hrun.2.2.1 hm, hconn2]
    · intro bMessage hm
      rw [hrun.2.2.2 bMessage hm, hconn2]
  · intro hne
    cases he : (InitializeStreams ext conn exchange).err with
    | none => exact absurd he hne
    | some e => exact hstart e he
  · intro hok
    have hsent := (InitializeStreams_loop_sent ext exchange.Name exchange.Streams conn
      Registry.empty hok).1
    refine ⟨hsent, ?_, ?_, ?_, ?_⟩
    · have := congrArg List.length hsent
      simpa using this
    · exact InitializeStreams_loop_conn ext exchange.Name exchange.Streams conn
        Registry.empty hok
    · intro stream hmem
      exact InitializeStreams_loop_registers ext exchange.Name exchange.Streams conn
        Registry.empty hok stream hmem
    · simp [HandleConnection, hok]

/-- C11, witness: the connection records what is written to it.  Of three
streams the second cannot be sent: the write error is returned, the connection
holds the first request only (the third stream's is not on it) and no goroutine
is started.  Two streams that can be sent are both subscribed and the
connection holds both requests in configuration order. -/
theorem InitializeStreams_all_or_nothing_witness :
    ((InitializeStreams recordingExternals [] brokenExchange).err =
          some (.external "write failed") ∧
        (InitializeStreams recordingExternals [] brokenExchange).sent.length = 1 ∧
        (InitializeStreams recordingExternals [] brokenExchange).conn = ["sub-btc"] ∧
        (HandleConnection recordingExternals (some []) brokenExchange).started = []) ∧
      (InitializeStreams recordingExternals [] soundExchange).sent.length = 2 ∧
      (InitializeStreams recordingExternals [] soundExchange).conn = ["sub-btc", "sub-eth"] :=
  have h := (InitializeStreams_all_or_nothing recordingExternals [] brokenExchange).1
    [⟨"BTCUSDT", "ticker", "spot", "sub-btc"⟩] [⟨"BNBUSDT", "ticker", "spot", "sub-bnb"⟩]
    ⟨"ETHUSDT", "trade", "spot", "bad"⟩ (.external "write failed") rfl rfl
    (Or.inr ⟨"bad", rfl, rfl⟩)
  have g := (InitializeStreams_all_or_nothing recordingExternals [] soundExchange).2.2 rfl
  ⟨⟨h.1, h.2.2.1, (h.2.2.2.2.1 "bad" rfl).trans (by decide), h.2.2.2.2.2⟩,
    g.2.1, g.2.2.1.trans (by decide)⟩

/-! ## What a successful classification leaves behind -/

/-- A call of `ProcessMessage` that returns no error is an acknowledgement that
leaves both outputs, a ticker with exactly one ticker record, or a trade with
exactly one trade record. -/
theorem ProcessMessage_cases (message : String) (tickerDataP : List TickerDataStruct)
    (tradeData : List TradeDataStruct)
    (h : (ProcessMessage message tickerDataP tradeData).err = none) :
    ((ProcessMessage message tickerDataP tradeData).dataType = 5 ∧
        (ProcessMessage message tickerDataP tradeData).tickerData = tickerDataP ∧
        (ProcessMessage message tickerDataP tradeData).tradeData = tradeData) ∨
      ((ProcessMessage message tickerDataP tradeData).dataType = 1 ∧
        (∃ t, (ProcessMessage message tickerDataP tradeData).tickerData = [t]) ∧
        (ProcessMessage message tickerDataP tradeData).tradeData = tradeData) ∨
      ((ProcessMessage message tickerDataP tradeData).dataType = 2 ∧
        (∃ t, (ProcessMessage message tickerDataP tradeData).tradeData = [t]) ∧
        (ProcessMessage message tickerDataP tradeData).tickerData = tickerDataP) := by
  unfold ProcessMessage at h ⊢
  repeat' split
  all_goals simp_all

/-- The `switch` of the consumer loop never indexes an empty slice. -/
theorem ConsumeMessages.switch_in_range (name message : String)
    (h : (ProcessMessage message [] []).err = none) :
    ConsumeMessages.switch name (ProcessMessage message [] []) ≠ .outOfRange := by
  rcases ProcessMessage_cases message [] [] h with ⟨h1, _⟩ | ⟨h1, ⟨t, h2⟩, _⟩ | ⟨h1, ⟨t, h2⟩, _⟩
  · simp [ConsumeMessages.switch, h1]
  · simp [ConsumeMessages.switch, h1, h2]
  · simp [ConsumeMessages.switch, h1, h2]

/-- The body of the consumer loop never leaves on an index out of range. -/
theorem ConsumeMessages.body_in_range {κ β μ : Type} (ext : Externals κ β μ) (name : String)
    (buffers : Registry β) (message : String) (b1 : Registry β) (tr : List ConsumerEvent) :
    ConsumeMessages.body ext name buffers message ≠ .exit b1 tr .indexOutOfRange := by
  intro hbody
  rcases ConsumeMessages.body_cases ext name buffers message with
    ⟨tr2, h2, _⟩ | ⟨tr2, _, _, _, herr, hsw⟩ | ⟨_, _, _, _, tr2, _, _, _, _, _, _, h2⟩
  · rw [h2] at hbody; simp at hbody
  · exact ConsumeMessages.switch_in_range name message herr hsw
  · rcases h2 with ⟨_, h2⟩ | ⟨_, _, h2⟩
    · rw [h2] at hbody; simp at hbody
    · rw [h2] at hbody; simp at hbody

/-- The consumer loop never ends on an index out of range. -/
theorem ConsumeMessages_in_range {κ β μ : Type} (ext : Externals κ β μ)
    (exchange : ExchangeConfig μ) (messages : List String) :
    ∀ buffers : Registry β,
      (ConsumeMessages ext exchange buffers messages).exit ≠ .indexOutOfRange := by
  induction messages with
  | nil =>
    intro buffers
    simp [ConsumeMessages]
  | cons m rest ih =>
    intro buffers
    rcases ConsumeMessages_cons ext exchange buffers m rest with
      ⟨_, hrun⟩ | ⟨b1, tr, why, hbody, hrun⟩
    · rw [hrun]
      exact ih _
    · rw [hrun]
      intro hwhy
      simp only at hwhy
      subst hwhy
      exact ConsumeMessages.body_in_range ext _ buffers m b1 tr hbody

/-! ## C12: only records with a symbol are ingested -/

/-- Every `AddData` call of one pass through the body hands over exactly one
record, and its symbol is not empty. -/
theorem ConsumeMessages.body_ingest_symbol {κ β μ : Type} (ext : Externals κ β μ)
    (name : String) (buffers : Registry β) (message : String) :
    ∀ call ∈ ingestCalls (ConsumeMessages.body ext name buffers message).trace,
      call.2.oneWithSymbol := by
  cases herr : (ProcessMessage message [] []).err with
  | some err => simp [ConsumeMessages.body, herr, Flow.trace, ingestCalls]
  | none =>
    rcases ProcessMessage_cases message [] [] herr with
      ⟨h1, _⟩ | ⟨h1, ⟨t, h2⟩, _⟩ | ⟨h1, ⟨t, h2⟩, _⟩
    · simp [ConsumeMessages.body, herr, ConsumeMessages.switch, h1, Flow.trace, ingestCalls]
    · by_cases hsym : t.Symbol = ""
      · simp [ConsumeMessages.body, herr, ConsumeMessages.switch, h1, h2, hsym, Flow.trace,
          ingestCalls]
      · have hcode : t.Symbol ++ ":ticker@" ++ name ≠ "" := by
          intro hc
          have := congrArg String.data hc
          simp only [String.data_append] at this
          cases hs : t.Symbol.data with
          | nil => exact hsym (String.ext hs)
          | cons c cs => simp [hs] at this
        cases hb : buffers (t.Symbol ++ ":ticker@" ++ name) with
        | none =>
          simp [ConsumeMessages.body, herr, ConsumeMessages.switch, h1, h2, hsym, hcode, hb,
            Flow.trace, ingestCalls]
        | some buffer =>
          cases ha : ext.AddData buffer (Records.ticker [t]) with
          | mk b1 e1 =>
            cases e1 <;>
              simp [ConsumeMessages.body, herr, ConsumeMessages.switch, h1, h2, hsym, hcode, hb,
                ha, Flow.trace, ingestCalls, Records.oneWithSymbol]
    · by_cases hsym : t.Symbol = ""
      · simp [ConsumeMessages.body, herr, ConsumeMessages.switch, h1, h2, hsym, Flow.trace,
          ingestCalls]
      · have hcode : t.Symbol ++ ":trade@" ++ name ≠ "" := by
          intro hc
          have := congrArg String.data hc
          simp only [String.data_append] at this
          cases hs : t.Symbol.data with
          | nil => exact hsym (String.ext hs)
          | cons c cs => simp [hs] at this
        cases hb : buffers (t.Symbol ++ ":trade@" ++ name) with
        | none =>
          simp [ConsumeMessages.body, herr, ConsumeMessages.switch, h1, h2, hsym, hcode, hb,
            Flow.trace, ingestCalls]
        | some buffer =>
          cases ha : ext.AddData buffer (Records.trade [t]) with
          | mk b1 e1 =>
            cases e1 <;>
              simp [ConsumeMessages.body, herr, ConsumeMessages.switch, h1, h2, hsym, hcode, hb,
                ha, Flow.trace, ingestCalls, Records.oneWithSymbol]

/-- Every `AddData` call of the consumer loop hands over exactly one record with
a non-empty symbol. -/
theorem ConsumeMessages_ingest_symbol {κ β μ : Type} (ext : Externals κ β μ)
    (exchange : ExchangeConfig μ) (messages : List String) :
    ∀ buffers : Registry β,
      ∀ call ∈ ingestCalls (ConsumeMessages ext exchange buffers messages).trace,
        call.2.oneWithSymbol := by
  induction messages with
  | nil =>
    intro buffers call hcall
    simp [ConsumeMessages, ingestCalls] at hcall
  | cons m rest ih =>
    intro buffers call hcall
    have hbody := ConsumeMessages.body_ingest_symbol ext (normalizedExchangeName exchange.Name)
      buffers m
    rcases ConsumeMessages_cons ext exchange buffers m rest with
      ⟨_, hrun⟩ | ⟨b1, tr, why, hb, hrun⟩
    · rw [hrun] at hcall
      simp only [ingestCalls_append, List.mem_append] at hcall
      rcases hcall with hc | hc
      · exact hbody call hc
      · exact ih _ call hc
    · rw [hrun] at hcall
      rw [hb] at hbody
      exact hbody call hcall

/-- C12: every record that `ConsumeMessages` passes to a buffer's `AddData` has a
non-empty symbol.  For every queue content and every registry, each `AddData`
call hands over exactly one record whose symbol is not empty; and a message
classified as a ticker or trade record whose symbol is empty is dropped before
any registry lookup or `AddData` call: whatever the registry holds, the pass
through the loop body ends after the call of `ProcessMessage` with no further
event and the registry as it was. -/
theorem ConsumeMessages_ingests_only_symbols {κ β μ : Type} (ext : Externals κ β μ)
    (exchange : ExchangeConfig μ) (buffers : Registry β) (messages : List String) :
    (∀ call ∈ ingestCalls (ConsumeMessages ext exchange buffers messages).trace,
        call.2.oneWithSymbol) ∧
      (∀ message : String, (ProcessMessage message [] []).err = none →
        (((ProcessMessage message [] []).dataType = 1 ∧
            ∃ t, (ProcessMessage message [] []).tickerData = [t] ∧ t.Symbol = "") ∨
          ((ProcessMessage message [] []).dataType = 2 ∧
            ∃ t, (ProcessMessage message [] []).tradeData = [t] ∧ t.Symbol = "")) →
        ∀ registry : Registry β,
          ConsumeMessages.body ext (normalizedExchangeName exchange.Name) registry message =
            .next registry [.processMessage message]) := by
  refine ⟨ConsumeMessages_ingest_symbol ext exchange messages buffers, ?_⟩
  intro message herr hempty registry
  rcases hempty with ⟨h1, t, h2, hsym⟩ | ⟨h1, t, h2, hsym⟩ <;>
    simp [ConsumeMessages.body, herr, ConsumeMessages.switch, h1, h2, hsym]

/-- C12, witness: the ticker payload without a symbol is dropped whatever the
registry holds, here the registry with a buffer for BTCUSDT tickers. -/
theorem ConsumeMessages_ingests_only_symbols_witness :
    (ConsumeMessages.body idleExternals (normalizedExchangeName "Binance") specRegistry
        emptySymbolTicker).trace = [.processMessage emptySymbolTicker] :=
  congrArg Flow.trace
    ((ConsumeMessages_ingests_only_symbols idleExternals specExchange specRegistry []).2
      emptySymbolTicker (by decide) (Or.inl ⟨by decide, ⟨0, "", "", "", "", ""⟩, by decide, rfl⟩)
      specRegistry)

/-! ## C13: the index expressions of the consumer loop are in range -/

/-- C13: whenever `ProcessMessage` returns no error, its discriminant is 1, 2 or
5 and never 0, discriminant 1 implies that the ticker output holds exactly one
record and discriminant 2 that the trade output holds exactly one record;
consequently, for every input message, the `switch` of `ConsumeMessages` never
evaluates `tickerData[0]` or `tradeData[0]` on an empty slice, and for every
queue content and registry the loop never ends on an index out of range. -/
theorem ProcessMessage_outputs_in_range {κ β μ : Type} (ext : Externals κ β μ)
    (exchange : ExchangeConfig μ) (buffers : Registry β) (messages : List String) :
    (∀ (message : String) (tickerDataP : List TickerDataStruct)
        (tradeData : List TradeDataStruct),
        (ProcessMessage message tickerDataP tradeData).err = none →
        ((ProcessMessage message tickerDataP tradeData).dataType = 1 ∨
            (ProcessMessage message tickerDataP tradeData).dataType = 2 ∨
            (ProcessMessage message tickerDataP tradeData).dataType = 5) ∧
          (ProcessMessage message tickerDataP tradeData).dataType ≠ 0 ∧
          ((ProcessMessage message tickerDataP tradeData).dataType = 1 →
            ∃ t, (ProcessMessage message tickerDataP tradeData).tickerData = [t]) ∧
          ((ProcessMessage message tickerDataP tradeData).dataType = 2 →
            ∃ t, (ProcessMessage message tickerDataP tradeData).tradeData = [t])) ∧
      (∀ name message : String, (ProcessMessage message [] []).err = none →
        ConsumeMessages.switch name (ProcessMessage message [] []) ≠ .outOfRange) ∧
      (ConsumeMessages ext exchange buffers messages).exit ≠ .indexOutOfRange := by
  refine ⟨?_, ?_, ConsumeMessages_in_range ext exchange messages buffers⟩
  · intro message tk td herr
    rcases ProcessMessage_cases message tk td herr with
      ⟨h1, _⟩ | ⟨h1, h2, _⟩ | ⟨h1, h2, _⟩
    · simp [h1]
    · simp [h1, h2]
    · simp [h1, h2]
  · intro name message herr
    exact ConsumeMessages.switch_in_range name message herr

end Binance
